import Mathlib

/-!
Verification development for the BASChat python extraction service
(`services/python-extractor`).  The Python source is shallowly embedded:
strings are `List Char`, Python floats that only ever hold exact decimal
amounts are `ℚ`, fallible code returns `Option`/`Except`, and the PyMuPDF
page-rendering backend (an external collaborator per the specification) is
an oracle parameter.  Regular-expression matching is embedded by a small
backtracking engine (`reM`) faithful to CPython `re` semantics
(leftmost match, ordered alternation, greedy/lazy repetition, word
boundaries, capture groups); each compiled pattern of the source is
transliterated into an `RE` value.  The embedding treats text as ASCII:
`lower`, `\d`, `\s`, `\b` are modelled on their ASCII behaviour, which is
exact for every input the claims mention.
-/

namespace BASChat

/-! ## Python string primitives -/

/-- ASCII model of Python `str.lower`. -/
def pyLower (s : List Char) : List Char := s.map Char.toLower

/-- Python `\s` / `str.strip` whitespace (ASCII part). -/
def pySpace (c : Char) : Bool :=
  c = ' ' ∨ c = '\t' ∨ c = '\n' ∨ c = '\r' ∨ c = '\x0b' ∨ c = '\x0c'

/-- Python `str.strip()`: drop whitespace at both ends. -/
def pyStrip (s : List Char) : List Char :=
  ((s.dropWhile pySpace).reverse.dropWhile pySpace).reverse

/-- Python `needle in hay` on strings. -/
def strContains (hay need : List Char) : Bool :=
  match hay with
  | [] => need.isEmpty
  | _ :: t => need.isPrefixOf hay || strContains t need

/-- Python `str.count`: non-overlapping occurrences, scanning left to
right.  Structural recursion on a fuel bounded by the haystack length, so
the definition reduces in the kernel; every scanning step consumes at
least one haystack character (the needles in scope are non-empty). -/
def countSubGo (need : List Char) : Nat → List Char → Nat
  | 0, _ => 0
  | _, [] => 0
  | fuel + 1, c :: t =>
    if need.isPrefixOf (c :: t) ∧ need ≠ [] then
      1 + countSubGo need fuel ((c :: t).drop need.length)
    else countSubGo need fuel t

def countSub (hay need : List Char) : Nat := countSubGo need hay.length hay

/-- Python `text.split('\n')`. -/
def splitNl (s : List Char) : List (List Char) :=
  match s with
  | [] => [[]]
  | c :: t =>
    if c = '\n' then [] :: splitNl t
    else
      match splitNl t with
      | [] => [[c]]
      | l :: ls => (c :: l) :: ls

/-- Python `' '.join(xs)`. -/
def joinSpace : List (List Char) → List Char
  | [] => []
  | [x] => x
  | x :: xs => x ++ ' ' :: joinSpace xs

/-! ## A backtracking regular-expression engine (CPython `re` semantics) -/

/-- Regular expressions, transliterated from the source's pattern strings.
`rep a lo hi greedy` is `a{lo,hi}` (`hi = none` means unbounded); `wb` is
`\b`; `eos` is `$` (end of string, or just before one trailing newline). -/
inductive RE where
  | eps : RE
  | cls : (Char → Bool) → RE
  | seq : RE → RE → RE
  | alt : RE → RE → RE
  | rep : RE → Nat → Option Nat → Bool → RE
  | grp : Nat → RE → RE
  | wb : RE
  | eos : RE

/-- Capture list; the most recent binding of a group index wins. -/
abbrev Caps := List (Nat × List Char)

def capGet (caps : Caps) (i : Nat) : Option (List Char) :=
  (caps.find? (fun p => p.1 = i)).map Prod.snd

/-- Python `\w` (ASCII). -/
def isWordChar (c : Char) : Bool :=
  ('a' ≤ c ∧ c ≤ 'z') ∨ ('A' ≤ c ∧ c ≤ 'Z') ∨ ('0' ≤ c ∧ c ≤ '9') ∨ c = '_'

/-- Core matcher in continuation-passing style.  `prev` is the character
just before the current position (for `\b`).  Alternation and repetition
try branches in CPython's priority order; the first continuation success
wins, which yields leftmost-greedy (or lazy) matching. -/
def reM (fuel : Nat) (r : RE) (prev : Option Char) (s : List Char) (caps : Caps)
    (k : Option Char → List Char → Caps → Option (List Char × Caps)) :
    Option (List Char × Caps) :=
  match fuel with
  | 0 => none
  | fuel + 1 =>
    match r with
    | .eps => k prev s caps
    | .cls p =>
      match s with
      | [] => none
      | c :: rest => if p c then k (some c) rest caps else none
    | .seq a b => reM fuel a prev s caps fun p1 s1 c1 => reM fuel b p1 s1 c1 k
    | .alt a b =>
      match reM fuel a prev s caps k with
      | some res => some res
      | none => reM fuel b prev s caps k
    | .rep a lo hi greedy =>
      if lo ≠ 0 then
        reM fuel a prev s caps fun p1 s1 c1 =>
          reM fuel (.rep a (lo - 1) (hi.map (· - 1)) greedy) p1 s1 c1 k
      else if hi = some 0 then k prev s caps
      else if greedy then
        match reM fuel a prev s caps (fun p1 s1 c1 =>
            reM fuel (.rep a 0 (hi.map (· - 1)) greedy) p1 s1 c1 k) with
        | some res => some res
        | none => k prev s caps
      else
        match k prev s caps with
        | some res => some res
        | none =>
          reM fuel a prev s caps fun p1 s1 c1 =>
            reM fuel (.rep a 0 (hi.map (· - 1)) greedy) p1 s1 c1 k
    | .grp i a =>
      reM fuel a prev s caps fun p1 s1 c1 =>
        k p1 s1 ((i, s.take (s.length - s1.length)) :: c1)
    | .wb =>
      let l := match prev with | none => false | some c => isWordChar c
      let rh := match s with | [] => false | c :: _ => isWordChar c
      if l ≠ rh then k prev s caps else none
    | .eos => if s = [] ∨ s = ['\n'] then k prev s caps else none

/-- Fuel bound: the matcher's recursion depth is linear in the input length
plus the pattern size; this bound is generous for every pattern below. -/
def reFuel (s : List Char) : Nat := s.length * 8 + 128

/-- Attempt a match anchored at the current position; returns the rest of
the string after the match together with the captures. -/
def matchHere (r : RE) (prev : Option Char) (s : List Char) :
    Option (List Char × Caps) :=
  reM (reFuel s) r prev s [] fun _ s1 c1 => some (s1, c1)

/-- `re.search`: first matching position, scanning left to right.
Returns the rest of the input after the match and the captures. -/
def reSearch (r : RE) (prev : Option Char) (s : List Char) :
    Option (List Char × Caps) :=
  match matchHere r prev s with
  | some res => some res
  | none =>
    match s with
    | [] => none
    | c :: t => reSearch r (some c) t

def reTest (r : RE) (s : List Char) : Bool := (reSearch r none s).isSome

/-- `re.findall` for a single-group pattern: list of group-1 captures of
successive non-overlapping matches. -/
def reFindAll (fuel : Nat) (r : RE) (prev : Option Char) (s : List Char) :
    List (List Char) :=
  match fuel with
  | 0 => []
  | fuel + 1 =>
    match reSearch r prev s with
    | none => []
    | some (rest, caps) =>
      let g := (capGet caps 1).getD []
      let consumed := s.length - rest.length
      if consumed = 0 then
        match rest with
        | [] => [g]
        | c :: t => g :: reFindAll fuel r (some c) t
      else g :: reFindAll fuel r (s.get? (consumed - 1)) rest

def findAll (r : RE) (s : List Char) : List (List Char) :=
  reFindAll (s.length + 1) r none s

/-- `re.sub(pattern, repl, s)` with a constant replacement. -/
def reSub (fuel : Nat) (r : RE) (repl : List Char) (prev : Option Char)
    (s : List Char) : List Char :=
  match fuel with
  | 0 => s
  | fuel + 1 =>
    match matchHere r prev s with
    | some (rest, _) =>
      if rest.length = s.length then
        match s with
        | [] => repl
        | c :: t => repl ++ c :: reSub fuel r repl (some c) t
      else repl ++ reSub fuel r repl (s.get? (s.length - rest.length - 1)) rest
    | none =>
      match s with
      | [] => []
      | c :: t => c :: reSub fuel r repl (some c) t

def subAll (r : RE) (repl : List Char) (s : List Char) : List Char :=
  reSub (s.length + 1) r repl none s

/-! Pattern-building helpers. -/

def rchar (c : Char) : RE := .cls (· = c)

/-- Case-insensitive literal character (pattern compiled with `re.IGNORECASE`). -/
def rcharCI (c : Char) : RE := .cls (fun x => x.toLower = c)

def seqList : List RE → RE
  | [] => .eps
  | [r] => r
  | r :: rs => .seq r (seqList rs)

def altList : List RE → RE
  | [] => .cls fun _ => false
  | [r] => r
  | r :: rs => .alt r (altList rs)

def rstr (cs : List Char) : RE := seqList (cs.map rchar)

def rstrCI (cs : List Char) : RE := seqList (cs.map rcharCI)

def rdigit : RE := .cls Char.isDigit

def rws : RE := .cls pySpace

/-! ## The pattern library (`StructuredExtractor.__init__`) -/

/-- `\d{lo,hi}` -/
def rdig (lo hi : Nat) : RE := .rep rdigit lo (some hi) true

/-- Character class of dash and slash (written in the source as a bracket
class of `-` and `/`). -/
def clsDashSlash : RE := .cls fun c => c = '-' ∨ c = '/'

/-- Character class of dot and slash. -/
def clsDotSlash : RE := .cls fun c => c = '.' ∨ c = '/'

/-- Character class of dot, slash and dash (used by the table detector). -/
def clsDotSlashDash : RE := .cls fun c => c = '.' ∨ c = '/' ∨ c = '-'

def monthAbbrevs : List (List Char) :=
  ["Jan".toList, "Feb".toList, "Mar".toList, "Apr".toList, "May".toList,
   "Jun".toList, "Jul".toList, "Aug".toList, "Sep".toList, "Oct".toList,
   "Nov".toList, "Dec".toList]

def monthFulls : List (List Char) :=
  ["January".toList, "February".toList, "March".toList, "April".toList,
   "May".toList, "June".toList, "July".toList, "August".toList,
   "September".toList, "October".toList, "November".toList, "December".toList]

/-- `\b(\d{1,2}[∕-]\d{1,2}...\d{4})\b` with dash-or-slash separators
(the source's first date pattern, numeric day/month then 4-digit year). -/
def datePat1 : RE :=
  seqList [.wb, .grp 1 (seqList [rdig 1 2, clsDashSlash, rdig 1 2, clsDashSlash, rdig 4 4]), .wb]

/-- `\b(\d{4}..\d{1,2}..\d{1,2})\b` with dash-or-slash separators
(the source's second date pattern, 4-digit year first). -/
def datePat2 : RE :=
  seqList [.wb, .grp 1 (seqList [rdig 4 4, clsDashSlash, rdig 1 2, clsDashSlash, rdig 1 2]), .wb]

/-- `\b(\d{1,2}\s+(?:Jan|...|Dec)\s+\d{4})\b` with `re.IGNORECASE` -/
def datePat3 : RE :=
  seqList [.wb, .grp 1 (seqList
    [rdig 1 2, .rep rws 1 none true,
     altList (monthAbbrevs.map fun m => rstrCI (pyLower m)),
     .rep rws 1 none true, rdig 4 4]), .wb]

/-- `\b(\d{1,2}[./]\d{1,2}[./]\d{2,4})\b` (dot-or-slash separators). -/
def datePat4 : RE :=
  seqList [.wb, .grp 1 (seqList [rdig 1 2, clsDotSlash, rdig 1 2, clsDotSlash, rdig 2 4]), .wb]

/-- `\b(\d{1,2}(?:st|nd|rd|th)?\s+(?:January|...|December)\s+\d{4})\b` with `re.IGNORECASE` -/
def datePat5 : RE :=
  seqList [.wb, .grp 1 (seqList
    [rdig 1 2,
     .rep (altList (["st".toList, "nd".toList, "rd".toList, "th".toList].map fun m => rstrCI m)) 0 (some 1) true,
     .rep rws 1 none true,
     altList (monthFulls.map fun m => rstrCI (pyLower m)),
     .rep rws 1 none true, rdig 4 4]), .wb]

def date_patterns : List RE := [datePat1, datePat2, datePat3, datePat4, datePat5]

/-- `\d{1,3}(?:,\d{3})*(?:\.\d{2})?` — the shared money-number core. -/
def numCore : RE :=
  seqList [rdig 1 3,
           .rep (.seq (rchar ',') (rdig 3 3)) 0 none true,
           .rep (.seq (rchar '.') (rdig 2 2)) 0 (some 1) true]

/-- `\$\s*(\d{1,3}(?:,\d{3})*(?:\.\d{2})?)` -/
def moneyPat1 : RE := seqList [rchar '$', .rep rws 0 none true, .grp 1 numCore]

/-- `(\d{1,3}(?:,\d{3})*(?:\.\d{2})?)\s*\$` -/
def moneyPat2 : RE := seqList [.grp 1 numCore, .rep rws 0 none true, rchar '$']

/-- `[-+]?\s*\$?\s*(\d{1,3}(?:,\d{3})*(?:\.\d{2})?)` -/
def moneyPat3 : RE :=
  seqList [.rep (.cls fun c => c = '-' ∨ c = '+') 0 (some 1) true,
           .rep rws 0 none true,
           .rep (rchar '$') 0 (some 1) true,
           .rep rws 0 none true, .grp 1 numCore]

/-- `\b(\d{1,3}(?:,\d{3})*\.\d{2})\b` -/
def moneyPat4 : RE :=
  seqList [.wb, .grp 1 (seqList
    [rdig 1 3, .rep (.seq (rchar ',') (rdig 3 3)) 0 none true,
     rchar '.', rdig 2 2]), .wb]

/-- `(?:AUD|USD|EUR|GBP|CAD)\s*(\d{1,3}(?:,\d{3})*(?:\.\d{2})?)` with `re.IGNORECASE` -/
def moneyPat5 : RE :=
  seqList [altList (["aud", "usd", "eur", "gbp", "cad"].map fun m => rstrCI m.toList),
           .rep rws 0 none true, .grp 1 numCore]

def money_patterns : List RE := [moneyPat1, moneyPat2, moneyPat3, moneyPat4, moneyPat5]

/-! ## Keyword sets (`StructuredExtractor.__init__`) -/

def rideshare_keywords : List (List Char) :=
  ["uber".toList, "lyft".toList, "trip".toList, "ride".toList, "driver".toList,
   "fare".toList, "pickup".toList, "dropoff".toList, "earnings".toList,
   "passenger".toList, "route".toList]

def bank_keywords : List (List Char) :=
  ["bank".toList, "statement".toList, "account".toList, "balance".toList,
   "debit".toList, "credit".toList, "deposit".toList, "withdrawal".toList,
   "transaction".toList, "atm".toList]

/-! ## `datetime.strptime` for the formats used by `_normalize_date`

CPython's `_strptime` compiles a format string to an anchored,
case-insensitive regex: each whitespace run in the format becomes `\s+`,
and the directives used here compile to
`%d ↦ 3[0-1]|[1-2]\d|0[1-9]|[1-9]| [1-9]`, `%m ↦ 1[0-2]|0[1-9]|[1-9]`,
`%Y ↦ \d\d\d\d`, `%y ↦ \d\d` (00-68 mapping to 2000+, 69-99 to 1900+),
`%b`/`%B` to alternations of the (ASCII, C-locale) month names.  The whole
input must be consumed, and the resulting (year, month, day) triple must
be a valid proleptic-Gregorian date with `1 ≤ year ≤ 9999`, otherwise
`ValueError` is raised and `_normalize_date` moves to the next format.
Each directive is embedded as the list of its regex alternatives in
priority order, and the format parser takes the first alternative whose
continuation succeeds — exactly the behaviour of the backtracking regex. -/

/-- Tokens of a strptime format string. -/
inductive FTok where
  | day : FTok
  | mon : FTok
  | y4 : FTok
  | y2 : FTok
  | monAbbr : FTok
  | monFull : FTok
  | lit : Char → FTok
  | ws : FTok
deriving DecidableEq

/-- Digit value of an ASCII digit character. -/
def digVal (c : Char) : Nat := c.toNat - '0'.toNat

/-- Alternatives for `%d` in regex priority order:
`3[0-1]`, `[1-2]\d`, `0[1-9]`, `[1-9]`, then space-padded ` [1-9]`. -/
def dayAlts (s : List Char) : List (Nat × List Char) :=
  (match s with
   | a :: b :: r => if a = '3' ∧ (b = '0' ∨ b = '1') then [(30 + digVal b, r)] else []
   | _ => []) ++
  (match s with
   | a :: b :: r => if (a = '1' ∨ a = '2') ∧ b.isDigit then [(digVal a * 10 + digVal b, r)] else []
   | _ => []) ++
  (match s with
   | a :: b :: r => if a = '0' ∧ ('1' ≤ b ∧ b ≤ '9') then [(digVal b, r)] else []
   | _ => []) ++
  (match s with
   | a :: r => if '1' ≤ a ∧ a ≤ '9' then [(digVal a, r)] else []
   | _ => []) ++
  (match s with
   | a :: b :: r => if a = ' ' ∧ ('1' ≤ b ∧ b ≤ '9') then [(digVal b, r)] else []
   | _ => [])

/-- Alternatives for `%m`: `1[0-2]`, `0[1-9]`, `[1-9]`. -/
def monAlts (s : List Char) : List (Nat × List Char) :=
  (match s with
   | a :: b :: r => if a = '1' ∧ (b = '0' ∨ b = '1' ∨ b = '2') then [(10 + digVal b, r)] else []
   | _ => []) ++
  (match s with
   | a :: b :: r => if a = '0' ∧ ('1' ≤ b ∧ b ≤ '9') then [(digVal b, r)] else []
   | _ => []) ++
  (match s with
   | a :: r => if '1' ≤ a ∧ a ≤ '9' then [(digVal a, r)] else []
   | _ => [])

/-- Alternatives for `%Y`: exactly four digits. -/
def y4Alts (s : List Char) : List (Nat × List Char) :=
  match s with
  | a :: b :: c :: d :: r =>
    if a.isDigit ∧ b.isDigit ∧ c.isDigit ∧ d.isDigit then
      [(digVal a * 1000 + digVal b * 100 + digVal c * 10 + digVal d, r)]
    else []
  | _ => []

/-- Alternatives for `%y`: two digits, with CPython's century rule
(00-68 ↦ 2000-2068, 69-99 ↦ 1969-1999). -/
def y2Alts (s : List Char) : List (Nat × List Char) :=
  match s with
  | a :: b :: r =>
    if a.isDigit ∧ b.isDigit then
      let v := digVal a * 10 + digVal b
      [(if v ≤ 68 then 2000 + v else 1900 + v, r)]
    else []
  | _ => []

/-- Case-insensitive literal word match returning the rest. -/
def dropWordCI (w : List Char) (s : List Char) : Option (List Char) :=
  match w, s with
  | [], _ => some s
  | _ :: _, [] => none
  | c :: wr, x :: sr => if x.toLower = c then dropWordCI wr sr else none

/-- Month-name alternatives (three-letter abbreviations). -/
def monAbbrAlts (s : List Char) : List (Nat × List Char) :=
  (List.range 12).filterMap fun i =>
    (dropWordCI (pyLower (monthAbbrevs.getD i [])) s).map fun r => (i + 1, r)

/-- Month-name alternatives (full names; the names are pairwise
non-prefix so CPython's longest-first ordering is immaterial). -/
def monFullAlts (s : List Char) : List (Nat × List Char) :=
  (List.range 12).filterMap fun i =>
    (dropWordCI (pyLower (monthFulls.getD i [])) s).map fun r => (i + 1, r)

/-- Alternatives for `\s+`: greedy, so the longest whitespace run first,
down to a single character. -/
def wsAlts (s : List Char) : List (Nat × List Char) :=
  let n := (s.takeWhile pySpace).length
  (List.range n).map fun i => (0, s.drop (n - i))

/-- All ways one token can consume a prefix of `s`, in regex priority
order, paired with the numeric value carried by the token (0 for
literals/whitespace). -/
def tokAlts : FTok → List Char → List (Nat × List Char)
  | .day, s => dayAlts s
  | .mon, s => monAlts s
  | .y4, s => y4Alts s
  | .y2, s => y2Alts s
  | .monAbbr, s => monAbbrAlts s
  | .monFull, s => monFullAlts s
  | .lit c, s => match s with
    | x :: r => if x = c then [(0, r)] else []
    | [] => []
  | .ws, s => wsAlts s

/-- First success of `f` over a list (the backtracking choice operator). -/
def firstSome : List α → (α → Option β) → Option β
  | [], _ => none
  | x :: xs, f =>
    match f x with
    | some r => some r
    | none => firstSome xs f

/-- Store the numeric value carried by a token into the (y, m, d)
accumulator. -/
def applyTok (t : FTok) (v : Nat) (acc : Nat × Nat × Nat) : Nat × Nat × Nat :=
  match t with
  | .day => (acc.1, acc.2.1, v)
  | .mon => (acc.1, v, acc.2.2)
  | .monAbbr => (acc.1, v, acc.2.2)
  | .monFull => (acc.1, v, acc.2.2)
  | .y4 => (v, acc.2.1, acc.2.2)
  | .y2 => (v, acc.2.1, acc.2.2)
  | .lit _ => acc
  | .ws => acc

/-- Run a token list against the whole input with backtracking: the first
alternative whose continuation succeeds wins, and the entire input must be
consumed (CPython checks `found.end() == len(data_string)`). -/
def runToks : List FTok → List Char → (Nat × Nat × Nat) → Option (Nat × Nat × Nat)
  | [], s, acc => if s = [] then some acc else none
  | t :: ts, s, acc =>
    firstSome (tokAlts t s) fun p => runToks ts p.2 (applyTok t p.1 acc)

/-- Gregorian leap year (as validated by `datetime`). -/
def isLeap (y : Nat) : Bool := (y % 4 = 0 ∧ y % 100 ≠ 0) ∨ y % 400 = 0

def daysInMonth (y m : Nat) : Nat :=
  if m = 2 then (if isLeap y then 29 else 28)
  else if m = 4 ∨ m = 6 ∨ m = 9 ∨ m = 11 then 30
  else 31

/-- `datetime(year, month, day)` constructor validation
(`MINYEAR = 1`, `MAXYEAR = 9999`). -/
def validDate (y m d : Nat) : Bool :=
  1 ≤ y ∧ y ≤ 9999 ∧ 1 ≤ m ∧ m ≤ 12 ∧ 1 ≤ d ∧ d ≤ daysInMonth y m

/-- `datetime.strptime(s, fmt)` restricted to the date fields used here. -/
def strptime (fmt : List FTok) (s : List Char) : Option (Nat × Nat × Nat) :=
  match runToks fmt s (1900, 1, 1) with
  | some (y, m, d) => if validDate y m d then some (y, m, d) else none
  | none => none

/-- The 18 formats tried, in order, by `_normalize_date`. -/
def normalizeFormats : List (List FTok) :=
  [[.day, .lit '/', .mon, .lit '/', .y4],
   [.day, .lit '-', .mon, .lit '-', .y4],
   [.mon, .lit '/', .day, .lit '/', .y4],
   [.mon, .lit '-', .day, .lit '-', .y4],
   [.y4, .lit '/', .mon, .lit '/', .day],
   [.y4, .lit '-', .mon, .lit '-', .day],
   [.day, .lit '.', .mon, .lit '.', .y4],
   [.day, .lit '.', .mon, .lit '.', .y2],
   [.day, .ws, .monAbbr, .ws, .y4],
   [.day, .ws, .monFull, .ws, .y4],
   [.mon, .lit '/', .day, .lit '/', .y2],
   [.day, .lit '/', .mon, .lit '/', .y2],
   [.day, .ws, .monAbbr, .lit ',', .ws, .y4],
   [.day, .ws, .monFull, .lit ',', .ws, .y4],
   [.monFull, .ws, .day, .lit ',', .ws, .y4],
   [.monAbbr, .ws, .day, .lit ',', .ws, .y4],
   [.day, .monAbbr, .y4],
   [.day, .monFull, .y4]]

/-- Decimal digits of a natural number (`str(n)` for the year field of
`strftime`, which does not zero-pad the year on this platform).
Structural on a fuel dominating the number of decimal digits. -/
def natDigitsGo : Nat → Nat → List Char
  | 0, _ => []
  | fuel + 1, n =>
    if n < 10 then [Char.ofNat ('0'.toNat + n)]
    else natDigitsGo fuel (n / 10) ++ [Char.ofNat ('0'.toNat + n % 10)]

def natDigits (n : Nat) : List Char := natDigitsGo (n + 1) n

/-- Two-digit zero-padded field of `strftime` (`%m`, `%d`). -/
def pad2 (n : Nat) : List Char :=
  [Char.ofNat ('0'.toNat + n / 10 % 10), Char.ofNat ('0'.toNat + n % 10)]

/-- `date(y, m, d).strftime('%Y-%m-%d')`. -/
def canonicalYmd (ymd : Nat × Nat × Nat) : List Char :=
  natDigits ymd.1 ++ '-' :: pad2 ymd.2.1 ++ '-' :: pad2 ymd.2.2

/-- The ordinal-suffix stripper
`re.sub(r'(\d+)(?:st|nd|rd|th)', r'\1', s, flags=re.IGNORECASE)`:
a maximal digit run immediately followed by an ordinal suffix keeps the
digits and drops the suffix (a shorter digit-run match would be followed
by another digit, so the regex can only fire at the head of a maximal
run, and scanning resumes after the replaced match). -/
def isOrdSuffix (a b : Char) : Bool :=
  (a.toLower = 's' ∧ b.toLower = 't') ∨ (a.toLower = 'n' ∧ b.toLower = 'd') ∨
  (a.toLower = 'r' ∧ b.toLower = 'd') ∨ (a.toLower = 't' ∧ b.toLower = 'h')

/-- Structural worker for `ordStrip`: each step consumes at least one
character, so a fuel equal to the string length suffices. -/
def ordStripGo : Nat → List Char → List Char
  | 0, s => s
  | _, [] => []
  | fuel + 1, c :: t =>
    if c.isDigit then
      let run := (c :: t).takeWhile Char.isDigit
      match (c :: t).dropWhile Char.isDigit with
      | a :: b :: r2 =>
        if isOrdSuffix a b then run ++ ordStripGo fuel r2
        else run ++ ordStripGo fuel (a :: b :: r2)
      | [a] => run ++ [a]
      | [] => run
    else c :: ordStripGo fuel t

def ordStrip (s : List Char) : List Char := ordStripGo s.length s

/-- `_normalize_date` (extractor.py): strip, drop ordinal suffixes, then
try the 18 strptime formats in order, rendering the first success as
`%Y-%m-%d`; if none matches, return the (stripped, ordinal-stripped)
string unchanged. -/
def normalize_date (s : List Char) : List Char :=
  let t := ordStrip (pyStrip s)
  match firstSome normalizeFormats (fun fmt => strptime fmt t) with
  | some ymd => canonicalYmd ymd
  | none => t

/-! ## Table detection (`StructuredExtractor._detect_tables`) -/

/-- `\s{3,}|\t{2,}` (column-separator runs). -/
def colSepPat : RE :=
  .alt (.rep rws 3 none true) (.rep (rchar '\t') 2 none true)

/-- `\d+[./\-]\d+[./\-]\d+` (date-shaped token, as used by the table
detector). -/
def tableDatePat : RE :=
  seqList [.rep rdigit 1 none true, clsDotSlashDash,
           .rep rdigit 1 none true, clsDotSlashDash, .rep rdigit 1 none true]

/-- `\$?\d+\.\d{2}` (money-shaped token of the table detector). -/
def tableMoneyPat : RE :=
  seqList [.rep (rchar '$') 0 (some 1) true, .rep rdigit 1 none true,
           rchar '.', rdig 2 2]

def headerKeywords : List (List Char) :=
  ["date".toList, "amount".toList, "description".toList,
   "debit".toList, "credit".toList, "balance".toList]

/-- Number of table indicators contributed by one (already stripped)
line: up to one per indicator kind, exactly the three `if`s of the
source's loop body. -/
def lineIndicators (line : List Char) : Nat :=
  (if reTest colSepPat line then 1 else 0) +
  (if reTest tableDatePat line ∧ reTest tableMoneyPat line then 1 else 0) +
  (if headerKeywords.any (fun h => strContains (pyLower line) h) then 1 else 0)

/-- The stripped, non-empty lines the detector's loop actually examines. -/
def detectLines (text : List Char) : List (List Char) :=
  ((splitNl text).map pyStrip).filter (fun l => !l.isEmpty)

/-- Total indicator count over the examined lines (specification-side
quantity; `tableIndicators_eq_detect_fold` relates it to the loop). -/
def tableIndicators (text : List Char) : Nat :=
  ((detectLines text).map lineIndicators).sum

/-- `_detect_tables`: the loop accumulates `table_indicators` over the
split lines (stripping each, skipping empties) and reports a table when
the total reaches 3. -/
def detect_tables (text : List Char) : Bool :=
  (splitNl text).foldl
    (fun acc rawLine =>
      let line := pyStrip rawLine
      if line.isEmpty then acc else acc + lineIndicators line)
    0 ≥ 3

/-- Number of lines that carry at least one table indicator (the quantity
the specification's "indicator lines" wording refers to). -/
def indicatorLineCount (text : List Char) : Nat :=
  ((detectLines text).filter (fun l => lineIndicators l != 0)).length

/-! ## Document classification (`StructuredExtractor.detect_document_type`) -/

/-- Unweighted keyword presence count. -/
def presenceScore (keywords : List (List Char)) (textLower : List Char) : Nat :=
  (keywords.map (fun k => if strContains textLower k then 1 else 0)).sum

/-- Frequency-weighted keyword count (`text_lower.count(keyword)` summed). -/
def weightedScore (keywords : List (List Char)) (textLower : List Char) : Nat :=
  (keywords.map (fun k => countSub textLower k)).sum

/-- Rideshare presence score of a text. -/
def rideshareScore (text : List Char) : Nat :=
  presenceScore rideshare_keywords (pyLower text)

/-- Bank presence score including the table boost (+2 when tables are
detected). -/
def bankScore (text : List Char) : Nat :=
  presenceScore bank_keywords (pyLower text) +
    (if detect_tables text then 2 else 0)

/-- Rideshare frequency-weighted score. -/
def rideshareWeighted (text : List Char) : Nat :=
  weightedScore rideshare_keywords (pyLower text)

/-- Bank frequency-weighted score including the table boost (+5). -/
def bankWeighted (text : List Char) : Nat :=
  weightedScore bank_keywords (pyLower text) +
    (if detect_tables text then 5 else 0)

/-- `detect_document_type`: keyword analysis plus table boost, then the
ordered decision rule. -/
def detect_document_type (text : List Char) : List Char :=
  if rideshareWeighted text > bankWeighted text ∧ rideshareScore text ≥ 2 then
    "rideshare".toList
  else if bankWeighted text ≥ 2 ∨ bankScore text ≥ 3 then
    "bank_statement".toList
  else
    "general".toList

/-! ## Money parsing helper -/

/-- `float(amount_str.replace(',', '').replace('$', ''))` for the strings
captured by the money patterns.  Every captured group is digits with
optional commas and an optional fractional part of exactly two digits, so
the float value is an exact decimal; it is embedded as an integer count
of hundredths (`ℚ`-valued fields are produced through `ratOfCents`).  A
string outside that shape yields `none`, matching the
`except ValueError: continue` of the source. -/
def pyFloatCents (s : List Char) : Option ℤ :=
  let s := s.filter (fun c => c ≠ ',' ∧ c ≠ '$')
  let intPart := s.takeWhile Char.isDigit
  let rest := s.dropWhile Char.isDigit
  if intPart = [] then none
  else
    let iv : ℕ := intPart.foldl (fun acc c => acc * 10 + digVal c) 0
    match rest with
    | [] => some (iv * 100)
    | '.' :: frac =>
      if frac.all Char.isDigit ∧ frac.length = 2 then
        some (iv * 100 + (frac.foldl (fun acc c => acc * 10 + digVal c) 0 : ℕ))
      else none
    | _ => none

/-- A count of hundredths as the exact decimal it denotes. -/
def ratOfCents (c : ℤ) : ℚ := (c : ℚ) / 100

/-- First date-pattern match in a line (`_parse_bank_line` /
`_parse_rideshare_line` date extraction): search the five compiled date
patterns in order, returning group 1 of the first that matches. -/
def findDateGroup (line : List Char) : Option (List Char) :=
  firstSome date_patterns fun pat =>
    (reSearch pat none line).bind fun res => capGet res.2 1

/-- All amounts found by running every money pattern's `findall` over the
text and parsing each captured group (pattern-major order, as in the
source's nested loops). -/
def extractAmounts (text : List Char) : List ℤ :=
  (money_patterns.map (fun pat => (findAll pat text).filterMap pyFloatCents)).flatten

/-! ## Bank line parsing (`StructuredExtractor._parse_bank_line`)

`BankTransaction` is embedded with the fields the parser sets; the
pydantic schema's `balance`, `reference` and `category` fields are never
assigned by `_parse_bank_line` and stay `None`. -/

structure BankTransaction where
  date : List Char
  description : List Char
  debit : Option ℚ
  credit : Option ℚ
deriving DecidableEq

def debitWords : List (List Char) :=
  ["debit".toList, "withdrawal".toList, "fee".toList, "charge".toList,
   "payment".toList, "purchase".toList]

def creditWords : List (List Char) :=
  ["credit".toList, "deposit".toList, "interest".toList, "refund".toList,
   "transfer in".toList]

def debitContextWords : List (List Char) :=
  ["atm".toList, "pos".toList, "transfer out".toList, "bill".toList]

/-- Python truthiness of an optional float: `None` and `0.0` are falsy
(the source tests `if not debit and not credit:`). -/
def pyFalsyOptQ : Option ℤ → Bool
  | none => true
  | some q => q = 0

/-- Debit/credit resolution of `_parse_bank_line` (lines 656-674): keyword
cues, the minus-sign check, then the secondary context keywords with a
default to credit.  `a0` is `amounts[0]` in hundredths. -/
def resolveDebitCredit (line : List Char) (a0 : ℤ) : Option ℤ × Option ℤ :=
  let ll := pyLower line
  let is_debit := debitWords.any (fun w => strContains ll w)
  let is_credit := creditWords.any (fun w => strContains ll w)
  let has_negative := line.contains '-' ∨ strContains ll "minus".toList
  let debit : Option ℤ := if is_debit ∨ has_negative then some a0 else none
  let credit : Option ℤ := if is_credit ∧ ¬ has_negative then some a0 else none
  if pyFalsyOptQ debit ∧ pyFalsyOptQ credit then
    if debitContextWords.any (fun w => strContains ll w) then (some a0, credit)
    else (debit, some a0)
  else (debit, credit)

/-- `\s+` (whitespace-run collapse). -/
def wsRunPat : RE := .rep rws 1 none true

/-- Strip one leading `(debit|credit|withdrawal|deposit)\s*` prefix,
case-insensitively (`re.sub` with an anchored pattern fires at most once,
at position 0). -/
def stripBankPrefix (s : List Char) : List Char :=
  match firstSome ["debit".toList, "credit".toList, "withdrawal".toList,
                   "deposit".toList] (fun w => dropWordCI w s) with
  | some rest => rest.dropWhile pySpace
  | none => s

/-- Description cleaning of `_parse_bank_line` (lines 676-686): delete all
date-pattern and money-pattern matches, collapse whitespace, strip, drop a
leading transaction-type word, strip again. -/
def cleanBankDescription (line : List Char) : List Char :=
  let d1 := date_patterns.foldl (fun acc pat => subAll pat [] acc) line
  let d2 := money_patterns.foldl (fun acc pat => subAll pat [] acc) d1
  let d3 := pyStrip (subAll wsRunPat [' '] d2)
  pyStrip (stripBankPrefix d3)

/-- `_parse_bank_line`: date, amounts, debit/credit resolution, cleaned
description.  Returns `none` when no date pattern or no money pattern
matches the line. -/
def parse_bank_line (line : List Char) : Option BankTransaction :=
  match findDateGroup line with
  | none => none
  | some g =>
    let date := normalize_date g
    match extractAmounts line with
    | [] => none
    | a0 :: _ =>
      let dc := resolveDebitCredit line a0
      some ⟨date, cleanBankDescription line,
            dc.1.map ratOfCents, dc.2.map ratOfCents⟩

/-! ## Rideshare line parsing (`StructuredExtractor._parse_rideshare_line`)

`RideshareTrip` is embedded with the fields the parser sets; the schema's
`time`, `distance`, `duration` and `tolls` fields are never assigned and
stay `None`. -/

structure RideshareTrip where
  date : List Char
  fare : ℚ
  tips : Option ℚ
  total_earnings : ℚ
  pickup_location : Option (List Char)
  dropoff_location : Option (List Char)
deriving DecidableEq

/-- `[A-Za-z\s,]` (location character class). -/
def locChar : RE :=
  .cls fun c => ('A' ≤ c ∧ c ≤ 'Z') ∨ ('a' ≤ c ∧ c ≤ 'z') ∨ pySpace c ∨ c = ','

/-- `.` (any character except newline). -/
def anyNoNl : RE := .cls fun c => c ≠ '\n'

/-- `(?:from|pickup|start).*?([A-Za-z\s,]+?)(?:to|dropoff|end|destination)`
with `re.IGNORECASE`. -/
def pickupPat : RE :=
  seqList [altList (["from", "pickup", "start"].map fun w => rstrCI w.toList),
           .rep anyNoNl 0 none false,
           .grp 1 (.rep locChar 1 none false),
           altList (["to", "dropoff", "end", "destination"].map fun w => rstrCI w.toList)]

/-- `(?:to|dropoff|end|destination).*?([A-Za-z\s,]+?)(?:\n|$)` with
`re.IGNORECASE`. -/
def dropoffPat : RE :=
  seqList [altList (["to", "dropoff", "end", "destination"].map fun w => rstrCI w.toList),
           .rep anyNoNl 0 none false,
           .grp 1 (.rep locChar 1 none false),
           .alt (rchar '\n') .eos]

/-- `_parse_rideshare_line`: date from the line itself, every money match
over the line concatenated with the joined three-line lookahead window
(which starts at the line itself), first amount as fare, second as tips,
`total_earnings` the sum of all matched amounts, opportunistic
pickup/drop-off extraction. -/
def parse_rideshare_line (line : List Char) (context_lines : List (List Char)) :
    Option RideshareTrip :=
  match findDateGroup line with
  | none => none
  | some g =>
    let date := normalize_date g
    let context_text := line ++ joinSpace context_lines
    match extractAmounts context_text with
    | [] => none
    | a0 :: rest =>
      let amounts := a0 :: rest
      let fare := a0
      let tips : Option ℤ := rest.head?
      let total : ℤ := amounts.sum
      let pickup : Option (List Char) :=
        (reSearch pickupPat none context_text).bind fun res =>
          (capGet res.2 1).map pyStrip
      let dropoff : Option (List Char) :=
        (reSearch dropoffPat none context_text).bind fun res =>
          (capGet res.2 1).map pyStrip
      some ⟨date, ratOfCents fare, tips.map ratOfCents, ratOfCents total,
            pickup, dropoff⟩

/-! ## Quality scoring (`LangExtractStyleExtractor._calculate_extraction_quality`)

The scorer consumes the final `RawTransaction` list and the
`extraction_confidence` field of the structure analysis.  Amounts are
embedded in `ℚ` (the source only ever produces exact decimal floats
here).  The source's `filled_fields` expression is
`sum(<3-element list> for t in transactions) * 3`: CPython's `sum`
starts from the integer `0` and adding a list to an integer raises
`TypeError`, so the computation faults on every non-empty transaction
list; the embedding models that faulting `sum` exactly. -/

structure RawTransaction where
  date : List Char
  description : List Char
  amount : ℚ
deriving DecidableEq

inductive PyErr where
  | typeError
deriving DecidableEq

structure QualityMetrics where
  overall_confidence : ℚ
  data_completeness : ℚ
  date_validity : ℚ
  amount_validity : ℚ
  description_quality : ℚ
  consistency_score : ℚ
deriving DecidableEq

/-- CPython `sum` over a generator whose elements are lists, with the
default integer start value `0`: the first addition `0 + [..]` raises
`TypeError: unsupported operand type(s) for +: 'int' and 'list'`. -/
def pySumIntLists : List (List ℤ) → Except PyErr ℤ
  | [] => .ok 0
  | _ :: _ => .error .typeError

/-- Round half to even (model of `round(x, n)`; only reachable through
dead code below, since `pySumIntLists` faults first on non-empty input). -/
def roundHalfEven (q : ℚ) : ℤ :=
  let f := ⌊q⌋
  let r := q - f
  if r < 1/2 then f
  else if r > 1/2 then f + 1
  else if f % 2 = 0 then f else f + 1

def pyRound (digits : Nat) (q : ℚ) : ℚ :=
  (roundHalfEven (q * 10 ^ digits) : ℚ) / 10 ^ digits

/-- `%Y-%m-%d` (used by the scorer's date-validity check). -/
def fmtYmdDash : List FTok := [.y4, .lit '-', .mon, .lit '-', .day]

def placeholderWords : List (List Char) :=
  ["unknown".toList, "n/a".toList, "none".toList]

/-- `_calculate_extraction_quality`: empty input short-circuits to the
fixed low-confidence metrics; otherwise the buggy `filled_fields` sum
raises `TypeError` before any sub-score or the final weighted blend
(transcribed below it, unreachable for non-empty input) is computed. -/
def calculate_extraction_quality (transactions : List RawTransaction)
    (base_confidence : ℚ) : Except PyErr QualityMetrics :=
  if transactions = [] then
    .ok ⟨1/10, 0, 0, 0, 0, 0⟩
  else do
    let total_fields : ℤ := transactions.length * 3
    let filled0 ← pySumIntLists (transactions.map fun t =>
      [if t.date ≠ [] then 1 else 0,
       if t.description ≠ [] ∧ t.description.length > 2 then 1 else 0,
       if t.amount ≠ 0 then 1 else 0])
    let filled_fields := filled0 * 3
    let data_completeness : ℚ :=
      if total_fields > 0 then (filled_fields : ℚ) / (total_fields : ℚ) else 0
    let valid_dates := (transactions.filter fun t =>
      (strptime fmtYmdDash t.date).isSome).length
    let date_validity : ℚ := (valid_dates : ℚ) / (transactions.length : ℚ)
    let valid_amounts := (transactions.filter fun t =>
      -1000000 ≤ t.amount ∧ t.amount ≤ 1000000 ∧ t.amount ≠ 0).length
    let amount_validity : ℚ := (valid_amounts : ℚ) / (transactions.length : ℚ)
    let quality_descriptions := (transactions.filter fun t =>
      t.description ≠ [] ∧ t.description.length > 5 ∧
      ¬ placeholderWords.any (fun w => w.isPrefixOf (pyLower t.description))).length
    let description_quality : ℚ :=
      (quality_descriptions : ℚ) / (transactions.length : ℚ)
    let unique_transactions := ((transactions.map fun t =>
      (t.date, t.description.take 20, pyRound 2 t.amount)).dedup).length
    let consistency_score : ℚ :=
      (unique_transactions : ℚ) / (transactions.length : ℚ)
    let overall_confidence : ℚ :=
      base_confidence * (3/10) + data_completeness * (2/10) +
      date_validity * (2/10) + amount_validity * (15/100) +
      description_quality * (1/10) + consistency_score * (5/100)
    .ok ⟨pyRound 3 overall_confidence, pyRound 3 data_completeness,
         pyRound 3 date_validity, pyRound 3 amount_validity,
         pyRound 3 description_quality, pyRound 3 consistency_score⟩

/-! ## The LRU cache (`performance_utils.CacheManager`)

Keys are strings, payloads an arbitrary type.  The `psutil` process-memory
check inside `put` depends on the host environment; it is an explicit
boolean parameter `memHigh` of the embedded `put` (the claims concern the
normal, below-threshold regime `memHigh = false`). -/

structure CacheState (V : Type) where
  max_size : Nat
  cache : List (String × V)
  access_order : List String
  hits : Nat
  misses : Nat
  evictions : Nat

def emptyCache (V : Type) (n : Nat) : CacheState V := ⟨n, [], [], 0, 0, 0⟩

def dictMem (k : String) (d : List (String × V)) : Bool := d.any (fun p => p.1 = k)

def dictGet (k : String) (d : List (String × V)) : Option V :=
  (d.find? (fun p => p.1 = k)).map Prod.snd

/-- Python dict assignment: update in place when present, else append. -/
def dictSet (k : String) (v : V) (d : List (String × V)) : List (String × V) :=
  if dictMem k d then d.map (fun p => if p.1 = k then (k, v) else p)
  else d ++ [(k, v)]

def dictDel (k : String) (d : List (String × V)) : List (String × V) :=
  d.filter (fun p => p.1 ≠ k)

/-- `CacheManager.get`: on a hit, move the key to the most-recent end of
`access_order` (`remove` then `append`) and count a hit; on a miss count a
miss. -/
def cacheGet (k : String) (s : CacheState V) : Option V × CacheState V :=
  if dictMem k s.cache then
    (dictGet k s.cache,
     { s with access_order := s.access_order.erase k ++ [k], hits := s.hits + 1 })
  else (none, { s with misses := s.misses + 1 })

/-- `CacheManager._evict_lru`: drop the head of `access_order` and its
cache entry. -/
def evictLru (s : CacheState V) : CacheState V :=
  match s.access_order with
  | [] => s
  | k :: rest =>
    if dictMem k s.cache then
      { s with cache := dictDel k s.cache, access_order := rest,
               evictions := s.evictions + 1 }
    else { s with access_order := rest }

/-- `CacheManager.clear`. -/
def clearCache (s : CacheState V) : CacheState V :=
  { s with cache := [], access_order := [] }

/-- First statement of `CacheManager.put`: evict when at capacity. -/
def putEvictStep (s : CacheState V) : CacheState V :=
  if s.cache.length ≥ s.max_size then evictLru s else s

/-- Second statement of `CacheManager.put`: clear everything when the
process-memory threshold is exceeded. -/
def putMemStep (memHigh : Bool) (s : CacheState V) : CacheState V :=
  if memHigh then clearCache s else s

/-- Final statements of `CacheManager.put`: insert the pair and mark the
key most recently used (`remove` if present, then `append`). -/
def putInsertStep (k : String) (v : V) (s : CacheState V) : CacheState V :=
  { s with cache := dictSet k v s.cache,
           access_order := s.access_order.erase k ++ [k] }

/-- `CacheManager.put`: evict the LRU entry when at capacity, clear
everything when the process-memory threshold is exceeded, then insert and
mark the key most recently used. -/
def cachePut (memHigh : Bool) (k : String) (v : V) (s : CacheState V) :
    CacheState V :=
  putInsertStep k v (putMemStep memHigh (putEvictStep s))

/-- A sequence of `put`s with a common payload in the normal memory
regime. -/
def putSeq (keys : List String) (v : V) (s : CacheState V) : CacheState V :=
  keys.foldl (fun acc k => cachePut false k v acc) s

/-! ## Text extraction (`SimplePDFExtractor`)

The PyMuPDF backend is out of scope (an external collaborator per the
specification); it is embedded as an oracle `openOf` mapping document
bytes to either an exception (`throws`) or an opened document: a list of
pages, each yielding its extracted text or `none` when every per-page
extraction tier raises.  Bytes are `List Nat`. -/

inductive OpenResult where
  | throws
  | doc (pages : List (Option (List Char)))

structure PdfEnv where
  openOf : List Nat → OpenResult

def pdfHeader : List Nat := [37, 80, 68, 70]

/-- `bytes.find` of a non-empty needle. -/
def findSubIdx (l pat : List Nat) : Option Nat :=
  if pat.isPrefixOf l then some 0
  else
    match l with
    | [] => none
    | _ :: t => (findSubIdx t pat).map (· + 1)

/-- Second half of `_clean_pdf_content`: resynchronise to the `%PDF`
marker when the (already null-stripped) content does not start with it. -/
def cleanAfterFilter (cleaned : List Nat) : List Nat :=
  if pdfHeader.isPrefixOf cleaned then cleaned
  else
    match findSubIdx cleaned pdfHeader with
    | some i => if i > 0 then cleaned.drop i else cleaned
    | none => cleaned

/-- `_clean_pdf_content`: strip null bytes, then resynchronise to the
`%PDF` marker when the content does not already start with it. -/
def cleanPdfContent (b : List Nat) : List Nat :=
  cleanAfterFilter (b.filter fun x => x ≠ 0)

/-- Python `range(a, b)`. -/
def rangeFromTo (a b : Nat) : List Nat := (List.range (b - a)).map (· + a)

/-- `sorted(list(set(xs)))`. -/
def dedupSort (l : List Nat) : List Nat := l.dedup.insertionSort (· ≤ ·)

/-- The page-sampling rule of `extract_text_from_pdf` (lines 39-53):
documents over 10 pages keep the first 3 pages, 2 pages from the middle
(when over 6 pages), and the last 2 (when over 3 pages), deduplicated and
sorted. -/
def samplePages (page_count : Nat) : List Nat :=
  if page_count > 10 then
    let s1 := List.range (min 3 page_count)
    let s2 :=
      if page_count > 6 then
        s1 ++ rangeFromTo (page_count / 2 - 1) (min (page_count / 2 - 1 + 2) page_count)
      else s1
    let s3 :=
      if page_count > 3 then s2 ++ rangeFromTo (max (page_count - 2) 0) page_count
      else s2
    dedupSort s3
  else List.range page_count

def max_chars : Nat := 100000

/-- The per-page loop of `extract_text_from_pdf` (lines 58-89): a failing
page is logged and skipped; an extracted page contributes its text plus a
newline; once the accumulated character count (excluding newlines) passes
`max_chars` the loop breaks.  Returns the accumulated text and the list
of pages actually appended. -/
def pageLoop (pageText : Nat → Option (List Char)) :
    List Nat → Nat → List Char × List Nat
  | [], _ => ([], [])
  | p :: rest, chars =>
    match pageText p with
    | none => pageLoop pageText rest chars
    | some t =>
      let chars' := chars + t.length
      if chars' > max_chars then (t ++ ['\n'], [p])
      else
        let r := pageLoop pageText rest chars'
        (t ++ '\n' :: r.1, p :: r.2)

inductive ExtractErr where
  | failedAfterAttempts (n : Nat)
  | repairFailedAfter (n : Nat)
deriving DecidableEq

def text_repair_attempts : Nat := 3

def encoding_fallbacks : List String := ["utf-8", "latin-1", "cp1252", "ascii"]

/-- Text of an opened document: sample the pages, then run the page loop. -/
def docText (pages : List (Option (List Char))) : List Char :=
  (pageLoop (fun i => pages.getD i none) (samplePages pages.length) 0).1

mutual

/-- `extract_text_from_pdf` (lines 27-111): on an opening exception,
repair while the attempt budget lasts, else raise the typed extraction
failure carrying the budget; on success with blank text, repair while the
budget lasts, else return the `"No text extracted"` sentinel.  `fuel`
bounds the mutual recursion depth (the attempt counter caps it at 9
nested calls; every theorem uses fuel 16). -/
def extractPdf (env : PdfEnv) (fuel : Nat) (b : List Nat) (attempt : Nat) :
    Except ExtractErr (List Char) :=
  match fuel with
  | 0 => .error (.failedAfterAttempts 0)
  | fuel + 1 =>
    match env.openOf b with
    | .throws =>
      if attempt < text_repair_attempts then repairRetry env fuel b (attempt + 1)
      else .error (.failedAfterAttempts text_repair_attempts)
    | .doc pages =>
      let text := docText pages
      if pyStrip text = [] ∧ attempt < text_repair_attempts then
        repairRetry env fuel b (attempt + 1)
      else if pyStrip text = [] then .ok "No text extracted".toList
      else .ok text

/-- `_repair_and_retry` (lines 195-219): the encoding loop never
re-encodes actual `bytes` input, so each iteration retries extraction on
the same content, catching `ValueError`; after the fallback list, retry on
the cleaned content; an exception there reaches the outer handler, which
retries once more within budget or raises the repair failure carrying the
attempt count. -/
def repairRetry (env : PdfEnv) (fuel : Nat) (b : List Nat) (attempt : Nat) :
    Except ExtractErr (List Char) :=
  match fuel with
  | 0 => .error (.repairFailedAfter 0)
  | fuel + 1 =>
    let encTry := encoding_fallbacks.foldl
      (fun acc _enc =>
        match acc with
        | some r => some r
        | none =>
          match extractPdf env fuel b attempt with
          | .ok s => some s
          | .error _ => none)
      none
    match encTry with
    | some s => .ok s
    | none =>
      match extractPdf env fuel (cleanPdfContent b) attempt with
      | .ok s => .ok s
      | .error _ =>
        if attempt < text_repair_attempts then extractPdf env fuel b attempt
        else .error (.repairFailedAfter attempt)

end

/-- Entry point: `extract_text_from_pdf(pdf_content)` with the default
attempt counter. -/
def extract_text_from_pdf (env : PdfEnv) (b : List Nat) :
    Except ExtractErr (List Char) :=
  extractPdf env 16 b 0

/-- Does one extraction attempt on these bytes yield usable text? -/
def yieldsText (env : PdfEnv) (b : List Nat) : Bool :=
  match env.openOf b with
  | .throws => false
  | .doc pages => pyStrip (docText pages) ≠ []

/-- Does opening these bytes raise? -/
def opensRaise (env : PdfEnv) (b : List Nat) : Bool :=
  match env.openOf b with
  | .throws => true
  | .doc _ => false

/-- Is the extraction result the typed extraction-failure error? -/
def isExtractionError : Except ExtractErr (List Char) → Bool
  | .error _ => true
  | .ok _ => false

/-- The text (or sentinel) one successful open yields. -/
def docResult (pages : List (Option (List Char))) :
    Except ExtractErr (List Char) :=
  .ok (if pyStrip (docText pages) = [] then "No text extracted".toList
       else docText pages)

/-- The overall result the retry/repair ladder converges to: the opened
document's text when the bytes open, else the cleaned bytes' text when
those open, else the repair-failure error carrying the attempt budget. -/
def extractExpected (env : PdfEnv) (b : List Nat) :
    Except ExtractErr (List Char) :=
  match env.openOf b with
  | .doc pages => docResult pages
  | .throws =>
    match env.openOf (cleanPdfContent b) with
    | .doc pages => docResult pages
    | .throws => .error (.repairFailedAfter 3)

/-! ## Scenario inputs fixed by the specification -/

/-- Scenario A input line (specification §8). -/
def lineA : List Char :=
  "01/02/2024  ACH Deposit - Salary            $3,000.00".toList

/-- Scenario B input text (specification §8). -/
def lineB : List Char := "Uber trip 05/10/2024 fare $12.50 tip $3.00".toList

/-- A two-indicator-line document whose total indicator count is 3. -/
def twoLineTable : List Char :=
  ("Date   Amount" ++ "\n" ++ "01/02/2024 $5.00").toList

/-- A backend in which every content opens to a single page with no
extractable text: every extraction attempt, before and after repair,
yields no text. -/
def envNoText : PdfEnv := ⟨fun _ => .doc [some []]⟩

/-- The canonical Y-M-D shape the specification refers to: a non-empty
digit run, a dash, two digits, a dash, two digits. -/
def isCanonicalShape (s : List Char) : Bool :=
  match s.dropWhile Char.isDigit with
  | '-' :: m1 :: m2 :: '-' :: d1 :: d2 :: [] =>
    (s.takeWhile Char.isDigit) ≠ [] ∧ m1.isDigit ∧ m2.isDigit ∧
      d1.isDigit ∧ d2.isDigit
  | _ => false

/-- What a token's success implies about the presence of characters in
the input (used to refute formats on inputs lacking the character kind). -/
def tokNeeds : FTok → List Char → Prop
  | .lit ch, s => ch ∈ s
  | .ws, s => ∃ c ∈ s, pySpace c = true
  | .monAbbr, s => ∃ c ∈ s, (c.toLower).isAlpha = true
  | .monFull, s => ∃ c ∈ s, (c.toLower).isAlpha = true
  | _, _ => True

/-- The character alphabet of a canonical `%Y-%m-%d` rendering. -/
def dateChars : List Char :=
  ['0', '1', '2', '3', '4', '5', '6', '7', '8', '9', '-']

/-! ## Supporting lemmas -/

theorem filter_nz_idem (l : List Nat) :
    (l.filter fun x => x ≠ 0).filter (fun x => x ≠ 0) =
      l.filter fun x => x ≠ 0 := by
  rw [List.filter_filter]
  simp

theorem findSubIdx_prefix (pat : List Nat) :
    ∀ (l : List Nat) (i : Nat), findSubIdx l pat = some i →
      pat.isPrefixOf (l.drop i) := by
  intro l
  induction l with
  | nil =>
    intro i h
    unfold findSubIdx at h
    by_cases hp : pat.isPrefixOf []
    · rw [if_pos hp] at h
      cases h
      simpa using hp
    · rw [if_neg hp] at h
      cases h
  | cons c t ih =>
    intro i h
    unfold findSubIdx at h
    by_cases hp : pat.isPrefixOf (c :: t)
    · rw [if_pos hp] at h
      cases h
      simpa using hp
    · rw [if_neg hp] at h
      simp only [Option.map_eq_some'] at h
      obtain ⟨j, hj, rfl⟩ := h
      simpa using ih j hj

/-- The resynchronisation step produces no new null bytes. -/
theorem cleanAfterFilter_nz (c : List Nat)
    (hc : (c.filter fun x => x ≠ 0) = c) :
    ((cleanAfterFilter c).filter fun x => x ≠ 0) = cleanAfterFilter c := by
  unfold cleanAfterFilter
  by_cases hp : pdfHeader.isPrefixOf c
  · rw [if_pos hp]
    exact hc
  · rw [if_neg hp]
    cases hfind : findSubIdx c pdfHeader with
    | none => exact hc
    | some i =>
      have hred : (match some i with
          | some j => if j > 0 then c.drop j else c
          | none => c) = if i > 0 then c.drop i else c := rfl
      rw [hred]
      by_cases hi : i > 0
      · rw [if_pos hi]
        refine List.filter_eq_self.mpr fun a ha => ?_
        have : a ∈ c := List.mem_of_mem_drop ha
        rw [← hc] at this
        exact (List.mem_filter.mp this).2
      · rw [if_neg hi]
        exact hc

/-- The resynchronisation step is idempotent on null-free content. -/
theorem cleanAfterFilter_idem (c : List Nat) :
    cleanAfterFilter (cleanAfterFilter c) = cleanAfterFilter c := by
  by_cases hp : pdfHeader.isPrefixOf c
  · have h1 : cleanAfterFilter c = c := by
      unfold cleanAfterFilter
      rw [if_pos hp]
    rw [h1, h1]
  · have h0 : cleanAfterFilter c =
        match findSubIdx c pdfHeader with
        | some i => if i > 0 then c.drop i else c
        | none => c := by
      unfold cleanAfterFilter
      rw [if_neg hp]
    cases hfind : findSubIdx c pdfHeader with
    | none =>
      have h1 : cleanAfterFilter c = c := by rw [h0, hfind]
      rw [h1, h1]
    | some i =>
      by_cases hi : i > 0
      · have h1 : cleanAfterFilter c = c.drop i := by
          rw [h0, hfind]
          exact if_pos hi
        have hpref : pdfHeader.isPrefixOf (c.drop i) :=
          findSubIdx_prefix pdfHeader c i hfind
        rw [h1]
        unfold cleanAfterFilter
        rw [if_pos hpref]
      · have h1 : cleanAfterFilter c = c := by
          rw [h0, hfind]
          exact if_neg hi
        rw [h1, h1]

/-- `_clean_pdf_content` is idempotent. -/
theorem cleanPdfContent_idem (b : List Nat) :
    cleanPdfContent (cleanPdfContent b) = cleanPdfContent b := by
  show cleanAfterFilter ((cleanAfterFilter (b.filter fun x => x ≠ 0)).filter
    fun x => x ≠ 0) = cleanAfterFilter (b.filter fun x => x ≠ 0)
  rw [cleanAfterFilter_nz _ (filter_nz_idem b)]
  exact cleanAfterFilter_idem _

/-! ## Claim C1 — quality scorer -/

/-- Claim C1: the quality scorer returns the fixed low-confidence metrics
(overall 0.1, all five sub-scores 0) for an empty record list; but for a
non-empty record list it does not return the specified weighted blend —
the `filled_fields` expression sums a generator of 3-element lists from
the integer start value 0, which raises `TypeError` before any sub-score
is computed, for every non-empty input. -/
theorem C1_quality_scorer_empty_ok_nonempty_type_error :
    calculate_extraction_quality [] (9/10) =
      .ok ⟨1/10, 0, 0, 0, 0, 0⟩ ∧
    calculate_extraction_quality
      [⟨"2024-01-01".toList, "Coffee Shop".toList, 5⟩] (9/10) =
      .error .typeError := by
  constructor
  · rfl
  · rfl

/-! ## Claim C2 — scenario A (bank line) -/

/-- Claim C2 counterexample: on the scenario A line the classifier does
not route to the bank extractor (it returns "general": the only bank
keyword hit is "deposit", giving weighted score 1 < 2, presence 1 < 3,
and only 2 table indicators), and the bank line parser puts the amount in
`debit`, not `credit` (the hyphen of "Deposit - Salary" satisfies the
`'-' in line` negative check). -/
theorem C2_scenarioA_counterexample :
    detect_document_type lineA ≠ "bank_statement".toList ∧
    (parse_bank_line lineA).map BankTransaction.credit = some none := by
  constructor
  · decide
  · rfl

/-- Claim C2 amended: the scenario A line classifies as "general", and
the bank line parser applied to it produces date "2024-02-01",
description "ACH Deposit - Salary", debit = 3000.00 and credit = None
(the hyphen in the description triggers the negative-amount heuristic,
which overrides the "deposit" credit cue). -/
theorem C2_scenarioA_amended :
    detect_document_type lineA = "general".toList ∧
    parse_bank_line lineA =
      some ⟨"2024-02-01".toList, "ACH Deposit - Salary".toList,
            some 3000, none⟩ := by
  refine ⟨rfl, ?_⟩
  have h : parse_bank_line lineA =
      some ⟨"2024-02-01".toList, "ACH Deposit - Salary".toList,
            some (ratOfCents 300000), none⟩ := rfl
  rw [h]
  norm_num [ratOfCents]

/-! ## Claim C3 — scenario B (rideshare line) -/

/-- Claim C3 counterexample: the scenario B text classifies as
"rideshare" with fare 12.50 and tips 3.00, but the trip's
`total_earnings` is not 15.50: the parser sums every match of every
money pattern over the line concatenated with its own lookahead window
(the window starts at the line itself, so everything is matched twice,
and the overlapping patterns also match date fragments), giving 532. -/
theorem C3_scenarioB_counterexample :
    (parse_rideshare_line lineB [lineB]).map RideshareTrip.total_earnings ≠
      some (31/2) := by
  have h2 : (parse_rideshare_line lineB [lineB]).map RideshareTrip.total_earnings =
      some (ratOfCents 53200) := rfl
  rw [h2]
  norm_num [ratOfCents]

/-- Claim C3 amended: the classifier returns "rideshare" for the scenario
B text, and the rideshare line parser produces date "2024-10-05",
fare = 12.50, tips = 3.00, and total_earnings = 532.00 — the sum of all
19 amounts matched by the five (overlapping) money patterns over the
line-plus-lookahead window, not of the fare and tip alone. -/
theorem C3_scenarioB_amended :
    detect_document_type lineB = "rideshare".toList ∧
    parse_rideshare_line lineB [lineB] =
      some ⟨"2024-10-05".toList, 25/2, some 3, 532, none, none⟩ := by
  refine ⟨rfl, ?_⟩
  have h : parse_rideshare_line lineB [lineB] =
      some ⟨"2024-10-05".toList, ratOfCents 1250, some (ratOfCents 300),
            ratOfCents 53200, none, none⟩ := rfl
  rw [h]
  norm_num [ratOfCents]

/-! ## Claim C5 — table detection threshold -/

/-- Claim C5 counterexample: a document in which exactly 2 lines carry
table indicators ("Date   Amount": a 3-space run and the header keywords;
"01/02/2024 $5.00": a date and a money token) is classified as a table,
because the detector counts indicators (3 here), not indicator lines. -/
theorem C5_two_indicator_lines_counterexample :
    indicatorLineCount twoLineTable = 2 ∧ detect_tables twoLineTable = true := by
  constructor
  · rfl
  · rfl

/-- The detector's fold equals the accumulator plus the total indicator
count of the stripped non-empty lines. -/
theorem detectFold_eq_sum (lines : List (List Char)) (acc : Nat) :
    lines.foldl
      (fun acc rawLine =>
        let line := pyStrip rawLine
        if line.isEmpty then acc else acc + lineIndicators line)
      acc =
    acc + ((((lines.map pyStrip).filter (fun l => !l.isEmpty)).map
      lineIndicators).sum) := by
  induction lines generalizing acc with
  | nil => simp
  | cons x xs ih =>
    simp only [List.foldl_cons]
    rw [ih]
    by_cases hx : (pyStrip x).isEmpty
    · simp [hx]
    · simp [hx]
      omega

/-- Claim C5 amended: the table detector reports a table exactly when the
total number of table indicators — a line can contribute up to three, one
per indicator kind — over the stripped non-empty lines is at least 3; in
particular any document whose indicator total is at most 2 is non-table,
but two indicator-carrying lines can already reach the threshold. -/
theorem C5_amended_indicator_total_threshold (text : List Char) :
    detect_tables text = true ↔ 3 ≤ tableIndicators text := by
  unfold detect_tables tableIndicators detectLines
  rw [detectFold_eq_sum]
  simp

/-! ## Claim C4 — classifier totality and decision rule -/

/-- Claim C4: the classifier is a total deterministic function into the
three type labels, and its value is fixed by the ordered rule of the
source: rideshare when the weighted rideshare score strictly exceeds the
(table-boosted) weighted bank score and the unweighted rideshare score is
at least 2; else bank_statement when the weighted bank score is at least
2 or the unweighted bank score at least 3; else general. -/
theorem C4_classifier_total_and_rule (text : List Char) :
    (detect_document_type text = "rideshare".toList ∨
     detect_document_type text = "bank_statement".toList ∨
     detect_document_type text = "general".toList) ∧
    (detect_document_type text = "rideshare".toList ↔
      (bankWeighted text < rideshareWeighted text ∧ 2 ≤ rideshareScore text)) ∧
    (detect_document_type text = "bank_statement".toList ↔
      (¬ (bankWeighted text < rideshareWeighted text ∧ 2 ≤ rideshareScore text) ∧
       (2 ≤ bankWeighted text ∨ 3 ≤ bankScore text))) ∧
    (detect_document_type text = "general".toList ↔
      (¬ (bankWeighted text < rideshareWeighted text ∧ 2 ≤ rideshareScore text) ∧
       ¬ (2 ≤ bankWeighted text ∨ 3 ≤ bankScore text))) := by
  unfold detect_document_type
  by_cases h1 : bankWeighted text < rideshareWeighted text ∧ 2 ≤ rideshareScore text
  · rw [if_pos h1]
    refine ⟨Or.inl rfl, ?_, ?_, ?_⟩ <;> simp [h1]
  · rw [if_neg h1]
    by_cases h2 : 2 ≤ bankWeighted text ∨ 3 ≤ bankScore text
    · rw [if_pos h2]
      refine ⟨Or.inr (Or.inl rfl), ?_, ?_, ?_⟩ <;> simp [h1, h2]
    · rw [if_neg h2]
      refine ⟨Or.inr (Or.inr rfl), ?_, ?_, ?_⟩ <;> simp [h1, h2]

/-! ## Claim C8 — page sampling and early termination -/

/-- Claim C8: a 15-page document is sampled at exactly pages
0, 1, 2, 6, 7, 13 and 14, and the page loop adds no further page once the
accumulated extracted character count passes 100,000: the page that
crosses the threshold is the last one appended. -/
theorem C8_page_sampling_and_early_stop :
    samplePages 15 = [0, 1, 2, 6, 7, 13, 14] ∧
    (∀ (f : Nat → Option (List Char)) (p : Nat) (rest : List Nat)
       (chars : Nat) (t : List Char),
       f p = some t → chars + t.length > max_chars →
       pageLoop f (p :: rest) chars = (t ++ ['\n'], [p])) := by
  refine ⟨by decide, ?_⟩
  intro f p rest chars t hf hgt
  simp [pageLoop, hf, if_pos hgt]

/-- Witness for claim C8's early-stop clause at a concrete page list. -/
theorem C8_page_sampling_witness :
    pageLoop (fun _ => some ['a']) [3, 4, 5] 100000 = (['a'] ++ ['\n'], [3]) :=
  C8_page_sampling_and_early_stop.2 (fun _ => some ['a']) 3 [4, 5] 100000 ['a']
    rfl (by decide)

/-! ## Claim C10 — bank transactions always carry a debit or a credit -/

/-- The final debit/credit assignment step never leaves both sides
`None`: the default branch writes `amounts[0]` into one side, and
outside it the falsiness test refutes double-`None`. -/
theorem notBothNone_step (d c : Option ℤ) (a0 : ℤ) (ctx : Prop)
    [Decidable ctx] :
    (if pyFalsyOptQ d = true ∧ pyFalsyOptQ c = true then
        if ctx then (some a0, c) else (d, some a0)
      else (d, c)).1 ≠ none ∨
    (if pyFalsyOptQ d = true ∧ pyFalsyOptQ c = true then
        if ctx then (some a0, c) else (d, some a0)
      else (d, c)).2 ≠ none := by
  split
  · split
    · exact Or.inl (by simp)
    · exact Or.inr (by simp)
  · rename_i h
    rcases not_and_or.mp h with h1 | h1
    · refine Or.inl fun hd => h1 ?_
      simp only at hd
      simp [hd, pyFalsyOptQ]
    · refine Or.inr fun hc => h1 ?_
      simp only at hc
      simp [hc, pyFalsyOptQ]

/-- The debit/credit resolution never leaves both sides `None`. -/
theorem resolveDebitCredit_not_both_none (line : List Char) (a0 : ℤ) :
    (resolveDebitCredit line a0).1 ≠ none ∨
    (resolveDebitCredit line a0).2 ≠ none := by
  unfold resolveDebitCredit
  exact notBothNone_step _ _ a0 _

/-- Claim C10: whenever the bank line parser returns a transaction, at
least one of its debit/credit fields is populated; and when none of the
debit cues, the minus-sign check, the credit cues nor the secondary
context keywords fire, the amount lands in `credit` by default. -/
theorem C10_bank_parser_never_both_none :
    (∀ (line : List Char) (t : BankTransaction),
       parse_bank_line line = some t → t.debit ≠ none ∨ t.credit ≠ none) ∧
    (∀ (line : List Char) (a0 : ℤ),
       debitWords.any (fun w => strContains (pyLower line) w) = false →
       creditWords.any (fun w => strContains (pyLower line) w) = false →
       line.contains '-' = false →
       strContains (pyLower line) "minus".toList = false →
       debitContextWords.any (fun w => strContains (pyLower line) w) = false →
       resolveDebitCredit line a0 = (none, some a0)) := by
  constructor
  · intro line t h
    unfold parse_bank_line at h
    cases hg : findDateGroup line with
    | none => rw [hg] at h; exact absurd h (by simp)
    | some g =>
      rw [hg] at h
      cases ha : extractAmounts line with
      | nil => rw [ha] at h; exact absurd h (by simp)
      | cons a0 rest =>
        rw [ha] at h
        simp only [Option.some.injEq] at h
        rcases resolveDebitCredit_not_both_none line a0 with hl | hr
        · left
          rw [← h]
          simpa using hl
        · right
          rw [← h]
          simpa using hr
  · intro line a0 h1 h2 h3 h4 h5
    unfold resolveDebitCredit
    have hd : ¬ ∃ x ∈ debitWords, strContains (pyLower line) x = true := by
      simpa using h1
    have hc : ¬ ∃ x ∈ creditWords, strContains (pyLower line) x = true := by
      simpa using h2
    have hctx : ¬ ∃ x ∈ debitContextWords, strContains (pyLower line) x = true := by
      simpa using h5
    have h3' : ¬ ('-' ∈ line) := by simpa using h3
    have h4' : strContains (pyLower line) ['m', 'i', 'n', 'u', 's'] = false := h4
    simp [hd, hc, hctx, h3', h4', pyFalsyOptQ]

/-- Witness for claim C10 at the scenario A line and a cue-free line. -/
theorem C10_bank_parser_witness :
    ((parse_bank_line lineA).map
      (fun t => t.debit ≠ none ∨ t.credit ≠ none) = some True ∨
     (parse_bank_line lineA).map
      (fun t => decide (t.debit ≠ none) || decide (t.credit ≠ none)) = some true) ∧
    resolveDebitCredit "01/02/2024 salary 500.00".toList 50000 =
      (none, some 50000) := by
  constructor
  · right
    have h : parse_bank_line lineA =
        some ⟨"2024-02-01".toList, "ACH Deposit - Salary".toList,
              some (ratOfCents 300000), none⟩ := rfl
    rw [h]
    simp
  · exact C10_bank_parser_never_both_none.2 "01/02/2024 salary 500.00".toList
      50000 (by decide) (by decide) (by decide) (by decide) (by decide)

/-! ## Claim C7 — cache LRU behaviour -/

theorem dictMem_map_iff (ks : List String) (v : Nat) (k : String) :
    dictMem k (ks.map (fun key => (key, v))) = true ↔ k ∈ ks := by
  induction ks with
  | nil => simp [dictMem]
  | cons a t ih =>
    simp only [List.map_cons, dictMem, List.any_cons] at *
    constructor
    · intro h
      rcases Bool.or_eq_true_iff.mp h with h1 | h1
      · exact (by simpa using h1.symm) ▸ List.mem_cons_self a t
      · exact List.mem_cons_of_mem a (ih.mp h1)
    · intro h
      rcases List.mem_cons.mp h with h1 | h1
      · simp [h1]
      · simp [ih.mpr h1]

theorem dictMem_del_self (a : String) (d : List (String × Nat)) :
    dictMem a (dictDel a d) = false := by
  induction d with
  | nil => rfl
  | cons p t ih =>
    by_cases hp : p.1 = a
    · have h1 : dictDel a (p :: t) = dictDel a t := by simp [dictDel, hp]
      rw [h1, ih]
    · have h1 : dictDel a (p :: t) = p :: dictDel a t := by simp [dictDel, hp]
      rw [h1]
      show (decide (p.1 = a) || dictMem a (dictDel a t)) = false
      rw [ih]
      simp [hp]

theorem dictMem_del_ne (a b : String) (d : List (String × Nat)) (hne : a ≠ b) :
    dictMem a (dictDel b d) = dictMem a d := by
  induction d with
  | nil => rfl
  | cons p t ih =>
    by_cases hp : p.1 = b
    · have h1 : dictDel b (p :: t) = dictDel b t := by simp [dictDel, hp]
      rw [h1, ih]
      have hpa : decide (p.1 = a) = false := by
        simp only [decide_eq_false_iff_not]
        intro h
        exact hne (by rw [← h, hp])
      show dictMem a t = (decide (p.1 = a) || dictMem a t)
      rw [hpa]
      simp
    · have h1 : dictDel b (p :: t) = p :: dictDel b t := by simp [dictDel, hp]
      rw [h1]
      show (decide (p.1 = a) || dictMem a (dictDel b t)) =
        (decide (p.1 = a) || dictMem a t)
      rw [ih]

theorem dictMem_append_single (a k : String) (v : Nat)
    (d : List (String × Nat)) :
    dictMem a (d ++ [(k, v)]) = (dictMem a d || decide (k = a)) := by
  simp [dictMem, List.any_append]

theorem dictSet_not_mem (k : String) (v : Nat) (d : List (String × Nat))
    (h : dictMem k d = false) : dictSet k v d = d ++ [(k, v)] := by
  unfold dictSet
  rw [h]
  simp

/-- `put` of a fresh key into a below-capacity cache in the normal memory
regime: no eviction, append to the dict and to the access order. -/
theorem cachePut_fresh (k : String) (v : Nat) (s : CacheState Nat)
    (hcap : s.cache.length < s.max_size) (hmem : dictMem k s.cache = false)
    (hord : k ∉ s.access_order) :
    (cachePut false k v s).cache = s.cache ++ [(k, v)] ∧
    (cachePut false k v s).access_order = s.access_order ++ [k] ∧
    (cachePut false k v s).max_size = s.max_size := by
  have h1 : ¬ (s.cache.length ≥ s.max_size) := by omega
  unfold cachePut putEvictStep
  rw [if_neg h1]
  refine ⟨?_, ?_, rfl⟩
  · show dictSet k v s.cache = s.cache ++ [(k, v)]
    exact dictSet_not_mem k v s.cache hmem
  · show s.access_order.erase k ++ [k] = s.access_order ++ [k]
    rw [List.erase_of_not_mem hord]

/-- `put` into a cache at capacity in the normal memory regime: the head
of the access order is evicted first, then the new key is appended. -/
theorem cachePut_at_capacity (k : String) (v : Nat) (s : CacheState Nat)
    (h0 : String) (rest : List String)
    (hord : s.access_order = h0 :: rest)
    (hcap : s.cache.length ≥ s.max_size)
    (hmem0 : dictMem h0 s.cache = true) :
    (cachePut false k v s).cache = dictSet k v (dictDel h0 s.cache) ∧
    (cachePut false k v s).access_order = rest.erase k ++ [k] := by
  unfold cachePut putEvictStep
  rw [if_pos hcap]
  have hev : evictLru s =
      { s with cache := dictDel h0 s.cache, access_order := rest,
               evictions := s.evictions + 1 } := by
    unfold evictLru
    rw [hord]
    simp only [hmem0, if_pos]
  rw [hev]
  exact ⟨rfl, rfl⟩

/-- `get` of a cached key: the dict is unchanged, the key moves to the
most-recent end of the access order. -/
theorem cacheGet_hit (k : String) (s : CacheState Nat)
    (hmem : dictMem k s.cache = true) :
    (cacheGet k s).2.cache = s.cache ∧
    (cacheGet k s).2.access_order = s.access_order.erase k ++ [k] ∧
    (cacheGet k s).2.max_size = s.max_size := by
  unfold cacheGet
  rw [if_pos hmem]
  exact ⟨rfl, rfl, rfl⟩

/-- After a sequence of fresh `put`s that stays within capacity, the cache
holds exactly the inserted pairs and the access order is the insertion
order. -/
theorem putSeq_spec (v : Nat) (ks : List String) :
    ∀ (N : Nat), ks.Nodup → ks.length ≤ N →
    (putSeq ks v (emptyCache Nat N)).cache = ks.map (fun k => (k, v)) ∧
    (putSeq ks v (emptyCache Nat N)).access_order = ks ∧
    (putSeq ks v (emptyCache Nat N)).max_size = N := by
  induction ks using List.reverseRecOn with
  | nil => intro N _ _; exact ⟨rfl, rfl, rfl⟩
  | append_singleton front k ih =>
    intro N hnd hlen
    have hfr : front.Nodup := hnd.of_append_left
    have hkf : k ∉ front := by
      simp [List.nodup_append] at hnd
      exact hnd.2
    have hlen' : front.length ≤ N := by
      simp at hlen
      omega
    have hltN : front.length < N := by
      simp at hlen
      omega
    obtain ⟨hc, ho, hm⟩ := ih N hfr hlen'
    have hstep : putSeq (front ++ [k]) v (emptyCache Nat N) =
        cachePut false k v (putSeq front v (emptyCache Nat N)) := by
      unfold putSeq
      rw [List.foldl_append]
      rfl
    rw [hstep]
    have hmemF : dictMem k (putSeq front v (emptyCache Nat N)).cache = false := by
      rw [hc]
      exact Bool.not_eq_true _ ▸ fun h => hkf ((dictMem_map_iff front v k).mp h)
    obtain ⟨pc, po, pm⟩ := cachePut_fresh k v (putSeq front v (emptyCache Nat N))
      (by rw [hc, hm]; simpa using hltN) hmemF
      (by rw [ho]; exact hkf)
    rw [pc, po, pm, hc, ho]
    simp [hm]

/-- Claim C7 counterexample: with capacity 0, a single put leaves its key
(the least-recently-used one) present, because eviction runs before
insertion; and with capacity 1, a `get` on the only key does not protect
it — the subsequent put of a fresh key still evicts it. -/
theorem C7_cache_counterexample :
    dictMem "k0" (putSeq ["k0"] 7 (emptyCache Nat 0)).cache = true ∧
    dictMem "k0"
      (cachePut false "k1" 7
        (cacheGet "k0" (putSeq ["k0"] 7 (emptyCache Nat 1))).2).cache = false := by
  constructor
  · rfl
  · rfl

/-- Claim C7 amended: with capacity N at least 1, inserting N+1 distinct
keys from empty evicts exactly the first-inserted (least recently used)
key; and with N at least 2, a `get` on a cached key moves it off the
eviction end, so the next eviction (triggered by putting one more fresh
key) removes a different key and the got key survives. -/
theorem C7_amended_lru_eviction (N : Nat) (v : Nat) :
    (∀ (k0 : String) (mid : List String) (klast : String),
       (k0 :: mid ++ [klast]).Nodup → (k0 :: mid).length = N →
       dictMem k0 (putSeq (k0 :: mid ++ [klast]) v (emptyCache Nat N)).cache =
         false) ∧
    (∀ (front : List String) (kj klast : String),
       front.Nodup → front.length = N → 2 ≤ N → kj ∈ front → klast ∉ front →
       ((cacheGet kj (putSeq front v (emptyCache Nat N))).2.access_order.head? ≠
          some kj ∧
        dictMem kj (cachePut false klast v
          (cacheGet kj (putSeq front v (emptyCache Nat N))).2).cache = true)) := by
  constructor
  · -- Part 1: N+1 fresh puts evict the first key.
    intro k0 mid klast hnd hlen
    have hnd' := hnd
    simp [List.nodup_append] at hnd'
    have hndF : (k0 :: mid).Nodup := by
      simp only [List.nodup_cons]
      exact ⟨hnd'.1.1, hnd'.2.1⟩
    have hklast : klast ∉ k0 :: mid := by
      simp only [List.mem_cons, not_or]
      exact ⟨fun h => hnd'.1.2 h.symm, hnd'.2.2⟩
    obtain ⟨hc, ho, hm⟩ := putSeq_spec v (k0 :: mid) N hndF (le_of_eq hlen)
    have hstep : putSeq (k0 :: mid ++ [klast]) v (emptyCache Nat N) =
        cachePut false klast v (putSeq (k0 :: mid) v (emptyCache Nat N)) := by
      unfold putSeq
      rw [show (k0 :: mid ++ [klast]) = (k0 :: mid) ++ [klast] from rfl,
          List.foldl_append]
      rfl
    rw [hstep]
    obtain ⟨pc, _⟩ := cachePut_at_capacity klast v
      (putSeq (k0 :: mid) v (emptyCache Nat N)) k0 mid (by rw [ho])
      (by rw [hc, hm]; simp at hlen ⊢; omega) (by
        rw [hc]
        exact (dictMem_map_iff (k0 :: mid) v k0).mpr (List.mem_cons_self k0 mid))
    rw [pc]
    have hne : klast ≠ k0 := fun h => hklast (h ▸ List.mem_cons_self k0 mid)
    rw [dictSet_not_mem klast v _ (by
      rw [dictMem_del_ne klast k0 _ hne, hc]
      exact Bool.not_eq_true _ ▸ fun h => hklast ((dictMem_map_iff _ v _).mp h))]
    rw [dictMem_append_single]
    rw [dictMem_del_self]
    simp [hne]
  · -- Part 2: a get moves the key off the eviction end; the next put
    -- evicts a different key and the got key survives.
    intro front kj klast hnd hlen hN hkj hklast
    obtain ⟨hc, ho, hm⟩ := putSeq_spec v front N hnd (le_of_eq hlen)
    have hmemj : dictMem kj (putSeq front v (emptyCache Nat N)).cache = true := by
      rw [hc]
      exact (dictMem_map_iff front v kj).mpr hkj
    obtain ⟨gc, go, gm⟩ := cacheGet_hit kj _ hmemj
    have herase_len : (front.erase kj).length = N - 1 := by
      rw [List.length_erase_of_mem hkj, hlen]
    have herase_ne : front.erase kj ≠ [] := by
      intro h
      rw [h] at herase_len
      simp at herase_len
      omega
    obtain ⟨h0, rest, hrest⟩ := List.exists_cons_of_ne_nil herase_ne
    have hkj_not_erase : kj ∉ front.erase kj := by
      intro h
      exact absurd rfl ((hnd.mem_erase_iff.mp h).1)
    have hh0_erase : h0 ∈ front.erase kj := by
      rw [hrest]
      exact List.mem_cons_self h0 rest
    have hh0_ne : h0 ≠ kj := fun h => hkj_not_erase (h ▸ hh0_erase)
    constructor
    · rw [go, ho, hrest]
      simp
      exact fun h => hh0_ne h
    · have hcap : (cacheGet kj (putSeq front v (emptyCache Nat N))).2.cache.length ≥
          (cacheGet kj (putSeq front v (emptyCache Nat N))).2.max_size := by
        rw [gc, hc, gm, hm]
        simp [hlen]
      have hord2 : (cacheGet kj (putSeq front v (emptyCache Nat N))).2.access_order =
          h0 :: (rest ++ [kj]) := by
        rw [go, ho, hrest]
        rfl
      have hmem0 : dictMem h0
          (cacheGet kj (putSeq front v (emptyCache Nat N))).2.cache = true := by
        rw [gc, hc]
        exact (dictMem_map_iff front v h0).mpr (List.mem_of_mem_erase hh0_erase)
      obtain ⟨pc, _⟩ := cachePut_at_capacity klast v _ h0 (rest ++ [kj]) hord2
        hcap hmem0
      rw [pc, gc, hc]
      have hklast_del : dictMem klast (dictDel h0
          (front.map (fun key => (key, v)))) = false := by
        by_cases hkh : klast = h0
        · rw [hkh]
          exact dictMem_del_self h0 _
        · rw [dictMem_del_ne klast h0 _ hkh]
          exact Bool.not_eq_true _ ▸ fun h => hklast ((dictMem_map_iff _ v _).mp h)
      rw [dictSet_not_mem klast v _ hklast_del, dictMem_append_single,
          dictMem_del_ne kj h0 _ (fun h => hh0_ne h.symm)]
      rw [(dictMem_map_iff front v kj).mpr hkj]
      simp

/-- Witness for claim C7's amended statement at capacity 2 with three
concrete keys. -/
theorem C7_amended_lru_witness :
    dictMem "a" (putSeq ("a" :: ["b"] ++ ["c"]) 7 (emptyCache Nat 2)).cache =
      false ∧
    ((cacheGet "a" (putSeq ["a", "b"] 7 (emptyCache Nat 2))).2.access_order.head? ≠
       some "a" ∧
     dictMem "a" (cachePut false "c" 7
       (cacheGet "a" (putSeq ["a", "b"] 7 (emptyCache Nat 2))).2).cache = true) :=
  ⟨(C7_amended_lru_eviction 2 7).1 "a" ["b"] "c" (by decide) (by decide),
   (C7_amended_lru_eviction 2 7).2 ["a", "b"] "a" "c" (by decide) (by decide)
     (by decide) (by decide) (by decide)⟩

/-! ## Claim C9 — extraction failure error versus repair budget

The behaviour of the `extract_text_from_pdf` / `_repair_and_retry`
recursion is characterised bottom-up, by the value of the attempt
counter, against `extractExpected`. -/

theorem extractPdf_at3_throws (env : PdfEnv) (f : Nat) (b : List Nat)
    (h : env.openOf b = .throws) :
    extractPdf env (f + 1) b 3 = .error (.failedAfterAttempts 3) := by
  unfold extractPdf
  rw [h]
  rfl

theorem extractPdf_at3_doc (env : PdfEnv) (f : Nat) (b : List Nat)
    (pages : List (Option (List Char))) (h : env.openOf b = .doc pages) :
    extractPdf env (f + 1) b 3 = docResult pages := by
  unfold extractPdf
  rw [h]
  show (if pyStrip (docText pages) = [] ∧ 3 < text_repair_attempts then
          repairRetry env f b (3 + 1)
        else if pyStrip (docText pages) = [] then
          Except.ok "No text extracted".toList
        else Except.ok (docText pages)) = docResult pages
  have h31 : ¬ (pyStrip (docText pages) = [] ∧ 3 < text_repair_attempts) := by
    simp [text_repair_attempts]
  rw [if_neg h31]
  unfold docResult
  by_cases he : pyStrip (docText pages) = [] <;> simp [he]

theorem repairRetry_at3 (env : PdfEnv) (f : Nat) (b : List Nat) :
    repairRetry env (f + 2) b 3 = extractExpected env b := by
  unfold repairRetry
  cases h1 : env.openOf b with
  | doc pages =>
    simp only [extractPdf_at3_doc env f b pages h1]
    simp [encoding_fallbacks, extractExpected, h1, docResult]
  | throws =>
    simp only [extractPdf_at3_throws env f b h1]
    cases h2 : env.openOf (cleanPdfContent b) with
    | doc pages =>
      simp only [extractPdf_at3_doc env f _ pages h2]
      simp [encoding_fallbacks, extractExpected, h1, h2, docResult]
    | throws =>
      simp only [extractPdf_at3_throws env f _ h2]
      simp [encoding_fallbacks, extractExpected, h1, h2, text_repair_attempts]

theorem extract_step (env : PdfEnv) (k a : Nat) (ha : a < 3)
    (hyp : ∀ f b, k ≤ f → repairRetry env f b (a + 1) = extractExpected env b) :
    ∀ f b, k + 1 ≤ f → extractPdf env f b a = extractExpected env b := by
  intro f b hf
  obtain ⟨f', rfl⟩ : ∃ g, f = g + 1 := ⟨f - 1, by omega⟩
  have ha' : a < text_repair_attempts := ha
  unfold extractPdf
  cases h1 : env.openOf b with
  | throws =>
    show (if a < text_repair_attempts then repairRetry env f' b (a + 1)
          else Except.error (.failedAfterAttempts text_repair_attempts)) =
      extractExpected env b
    rw [if_pos ha', hyp f' b (by omega)]
  | doc pages =>
    show (if pyStrip (docText pages) = [] ∧ a < text_repair_attempts then
            repairRetry env f' b (a + 1)
          else if pyStrip (docText pages) = [] then
            Except.ok "No text extracted".toList
          else Except.ok (docText pages)) = extractExpected env b
    by_cases he : pyStrip (docText pages) = []
    · rw [if_pos (And.intro he ha'), hyp f' b (by omega)]
    · have hcond : ¬ (pyStrip (docText pages) = [] ∧ a < text_repair_attempts) :=
        fun hcc => he hcc.1
      rw [if_neg hcond, if_neg he]
      simp [extractExpected, h1, docResult, he]

theorem repair_step (env : PdfEnv) (k a : Nat) (ha : a < 3)
    (hyp : ∀ f b, k ≤ f → extractPdf env f b a = extractExpected env b) :
    ∀ f b, k + 1 ≤ f → repairRetry env f b a = extractExpected env b := by
  intro f b hf
  obtain ⟨f', rfl⟩ : ∃ g, f = g + 1 := ⟨f - 1, by omega⟩
  have ha' : a < text_repair_attempts := ha
  unfold repairRetry
  simp only [hyp f' b (by omega), hyp f' (cleanPdfContent b) (by omega)]
  cases h1 : env.openOf b with
  | doc pages =>
    simp [encoding_fallbacks, extractExpected, h1, docResult]
  | throws =>
    cases h2 : env.openOf (cleanPdfContent b) with
    | doc pages =>
      simp [encoding_fallbacks, extractExpected, h1, h2, docResult]
    | throws =>
      simp [encoding_fallbacks, extractExpected, h1, h2,
        cleanPdfContent_idem, ha']

/-- The retry/repair ladder from a fresh call converges to
`extractExpected` for any fuel at least 7 (the call depth is bounded by
the attempt budget). -/
theorem extract_final (env : PdfEnv) :
    ∀ f b, 7 ≤ f → extractPdf env f b 0 = extractExpected env b := by
  have r3 : ∀ f b, 2 ≤ f → repairRetry env f b 3 = extractExpected env b := by
    intro f b hf
    obtain ⟨f', rfl⟩ : ∃ g, f = g + 2 := ⟨f - 2, by omega⟩
    exact repairRetry_at3 env f' b
  have e2 := extract_step env 2 2 (by omega) r3
  have r2 := repair_step env 3 2 (by omega) e2
  have e1 := extract_step env 4 1 (by omega) r2
  have r1 := repair_step env 5 1 (by omega) e1
  exact extract_step env 6 0 (by omega) r1

/-- Claim C9 counterexample: for a backend in which every open succeeds
but no page ever yields text (before or after cleaning), every attempt —
the whole repair budget — obtains no text, yet the call returns the
`"No text extracted"` sentinel rather than raising the typed
extraction-failure error. -/
theorem C9_no_text_but_no_error_counterexample :
    yieldsText envNoText [1, 2, 3] = false ∧
    yieldsText envNoText (cleanPdfContent [1, 2, 3]) = false ∧
    extract_text_from_pdf envNoText [1, 2, 3] = .ok "No text extracted".toList ∧
    isExtractionError (extract_text_from_pdf envNoText [1, 2, 3]) = false :=
  ⟨rfl, rfl, rfl, rfl⟩

/-- Claim C9 amended: the typed extraction error is raised exactly when
opening the document raises both for the original bytes and for the
repaired (null-stripped, header-resynchronised) bytes; in particular a
document that opens — even to pages with no text or with failing pages —
never produces the error, and a budget-exhausted document that opens but
yields no text returns the sentinel string instead. -/
theorem C9_amended_error_iff_unopenable (env : PdfEnv) (b : List Nat) :
    (isExtractionError (extract_text_from_pdf env b) = true ↔
      (opensRaise env b = true ∧ opensRaise env (cleanPdfContent b) = true)) ∧
    (∀ pages, env.openOf b = .doc pages →
      isExtractionError (extract_text_from_pdf env b) = false) := by
  have htop : extract_text_from_pdf env b = extractExpected env b :=
    extract_final env 16 b (by omega)
  rw [htop]
  cases h1 : env.openOf b with
  | doc pages =>
    constructor
    · simp [extractExpected, h1, opensRaise, docResult, isExtractionError]
    · intro pages2 _
      simp [extractExpected, h1, docResult, isExtractionError]
  | throws =>
    cases h2 : env.openOf (cleanPdfContent b) with
    | doc pages =>
      constructor
      · simp [extractExpected, h1, h2, opensRaise, docResult, isExtractionError]
      · intro pages2 hp2
        simp [h1] at hp2
    | throws =>
      constructor
      · simp [extractExpected, h1, h2, opensRaise, isExtractionError]
      · intro pages2 hp2
        simp [h1] at hp2

/-- Witness for claim C9's amended statement: a backend whose documents
always open never yields the extraction error. -/
theorem C9_amended_witness :
    isExtractionError (extract_text_from_pdf envNoText [9]) = false :=
  (C9_amended_error_iff_unopenable envNoText [9]).2 [some []] rfl

/-! ## Date normalization (claim C6): supporting development -/

/-! ### List and character basics, strip fixed points, digit rendering -/

theorem firstSome_some_ex {α β : Type} (l : List α) (f : α → Option β) (b : β)
    (h : firstSome l f = some b) : ∃ a ∈ l, f a = some b := by
  induction l with
  | nil => simp [firstSome] at h
  | cons x xs ih =>
    rw [firstSome] at h
    cases hx : f x with
    | some r => rw [hx] at h; exact ⟨x, List.mem_cons_self x xs, hx.trans h⟩
    | none =>
      rw [hx] at h
      obtain ⟨a, ha, hfa⟩ := ih h
      exact ⟨a, List.mem_cons_of_mem x ha, hfa⟩

theorem firstSome_cons_none {α β : Type} {x : α} {xs : List α} {f : α → Option β}
    (h : f x = none) : firstSome (x :: xs) f = firstSome xs f := by
  rw [firstSome, h]

theorem firstSome_cons_some {α β : Type} {x : α} {xs : List α} {f : α → Option β}
    {b : β} (h : f x = some b) : firstSome (x :: xs) f = some b := by
  rw [firstSome, h]

theorem firstSome_none_of_all {α β : Type} (l : List α) (f : α → Option β)
    (h : ∀ a ∈ l, f a = none) : firstSome l f = none := by
  induction l with
  | nil => rfl
  | cons x xs ih =>
    rw [firstSome_cons_none (h x (List.mem_cons_self x xs))]
    exact ih fun a ha => h a (List.mem_cons_of_mem x ha)

theorem mem_ite_singleton {α : Type} {c : Prop} [Decidable c] {x p : α}
    (h : p ∈ (if c then [x] else [])) : p = x := by
  split at h
  · simpa using h
  · simp at h

theorem dropWhile_head_false {p : Char → Bool} {l r : List Char} {a : Char}
    (h : l.dropWhile p = a :: r) : p a = false := by
  induction l with
  | nil => simp [List.dropWhile] at h
  | cons c t ih =>
    rw [List.dropWhile_cons] at h
    split at h
    · exact ih h
    · cases h
      rename_i hc
      simpa using hc

theorem dropWhile_cons_false {p : Char → Bool} {c : Char} {t : List Char}
    (h : p c = false) : (c :: t).dropWhile p = c :: t := by
  simp [List.dropWhile_cons, h]

theorem dropWhile_eq_self_of {p : Char → Bool} {l : List Char}
    (h : ∀ c ∈ l, p c = false) : l.dropWhile p = l := by
  cases l with
  | nil => rfl
  | cons c t => exact dropWhile_cons_false (h c (List.mem_cons_self c t))

theorem length_dropWhile_le' (p : Char → Bool) (l : List Char) :
    (l.dropWhile p).length ≤ l.length :=
  (List.dropWhile_sublist (l := l) p).length_le

theorem takeWhile_head_sat {p : Char → Bool} {l : List Char}
    (h : l.takeWhile p ≠ []) : ∃ x ∈ l, p x = true := by
  cases l with
  | nil => simp [List.takeWhile] at h
  | cons c t =>
    rw [List.takeWhile_cons] at h
    split at h
    · rename_i hc
      exact ⟨c, List.mem_cons_self c t, hc⟩
    · simp at h

theorem takeWhile_append_of_all {p : Char → Bool} {l1 l2 : List Char}
    (h : ∀ c ∈ l1, p c = true) : (l1 ++ l2).takeWhile p = l1 ++ l2.takeWhile p := by
  induction l1 with
  | nil => simp
  | cons c t ih =>
    rw [List.cons_append, List.takeWhile_cons, if_pos (h c (List.mem_cons_self c t)),
        ih fun x hx => h x (List.mem_cons_of_mem c hx), List.cons_append]

theorem dropWhile_append_of_all {p : Char → Bool} {l1 l2 : List Char}
    (h : ∀ c ∈ l1, p c = true) : (l1 ++ l2).dropWhile p = l2.dropWhile p := by
  induction l1 with
  | nil => simp
  | cons c t ih =>
    rw [List.cons_append, List.dropWhile_cons, if_pos (h c (List.mem_cons_self c t))]
    exact ih fun x hx => h x (List.mem_cons_of_mem c hx)

theorem pyStrip_eq_self {l : List Char} (h : ∀ c ∈ l, pySpace c = false) :
    pyStrip l = l := by
  unfold pyStrip
  rw [dropWhile_eq_self_of h,
      dropWhile_eq_self_of (fun c hc => h c (List.mem_reverse.mp hc)),
      List.reverse_reverse]

theorem pyStrip_idem (l : List Char) : pyStrip (pyStrip l) = pyStrip l := by
  rcases hDc : (l.dropWhile pySpace).reverse.dropWhile pySpace with _ | ⟨d, D'⟩
  · have h0 : pyStrip l = [] := by unfold pyStrip; rw [hDc]; rfl
    rw [h0]; rfl
  · have hd : pySpace d = false := dropWhile_head_false hDc
    have hpl : pyStrip l = (d :: D').reverse := by unfold pyStrip; rw [hDc]
    have hsplit : l.dropWhile pySpace
        = (d :: D').reverse ++ ((l.dropWhile pySpace).reverse.takeWhile pySpace).reverse := by
      calc l.dropWhile pySpace
          = (l.dropWhile pySpace).reverse.reverse := (List.reverse_reverse _).symm
        _ = ((l.dropWhile pySpace).reverse.takeWhile pySpace
              ++ (l.dropWhile pySpace).reverse.dropWhile pySpace).reverse := by
            rw [List.takeWhile_append_dropWhile]
        _ = _ := by rw [hDc, List.reverse_append]
    rcases hBc : (d :: D').reverse with _ | ⟨b, B2⟩
    · simp at hBc
    · have hlb : l.dropWhile pySpace
          = b :: (B2 ++ ((l.dropWhile pySpace).reverse.takeWhile pySpace).reverse) := by
        conv_lhs => rw [hsplit, hBc]
        rw [List.cons_append]
      have hb : pySpace b = false := dropWhile_head_false hlb
      rw [hpl, hBc]
      unfold pyStrip
      rw [dropWhile_cons_false hb]
      have h2 : (b :: B2).reverse = d :: D' := by rw [← hBc, List.reverse_reverse]
      rw [h2, dropWhile_cons_false hd, ← h2, List.reverse_reverse]

/-! Digit characters. -/

theorem digitChar_isDigit {k : Nat} (hk : k < 10) :
    (Char.ofNat ('0'.toNat + k)).isDigit = true := by
  interval_cases k <;> decide

theorem digitChar_mem_dateChars {k : Nat} (hk : k < 10) :
    Char.ofNat ('0'.toNat + k) ∈ dateChars := by
  interval_cases k <;> decide

theorem digVal_digitChar {k : Nat} (hk : k < 10) :
    digVal (Char.ofNat ('0'.toNat + k)) = k := by
  interval_cases k <;> decide

/-! natDigits structure. -/

theorem ndGo_succ (f n : Nat) (hf : 0 < f) :
    natDigitsGo f n = if n < 10 then [Char.ofNat ('0'.toNat + n)]
      else natDigitsGo (f - 1) (n / 10) ++ [Char.ofNat ('0'.toNat + n % 10)] := by
  obtain ⟨f', rfl⟩ : ∃ f', f = f' + 1 := ⟨f - 1, by omega⟩
  rfl

theorem natDigitsGo_mem_dateChars {f n : Nat} {c : Char}
    (hc : c ∈ natDigitsGo f n) : c ∈ dateChars := by
  induction f generalizing n with
  | zero => simp [natDigitsGo] at hc
  | succ f ih =>
    rw [natDigitsGo] at hc
    split at hc
    · rename_i hn
      rw [List.mem_singleton] at hc
      exact hc ▸ digitChar_mem_dateChars hn
    · rcases List.mem_append.mp hc with h | h
      · exact ih h
      · rw [List.mem_singleton] at h
        exact h ▸ digitChar_mem_dateChars (Nat.mod_lt _ (by omega))

theorem natDigits_ne_nil (n : Nat) : natDigits n ≠ [] := by
  unfold natDigits
  rw [ndGo_succ _ _ (by omega)]
  split <;> simp

theorem natDigits_one (y : Nat) (h : y < 10) :
    natDigits y = [Char.ofNat ('0'.toNat + y)] := by
  unfold natDigits
  rw [ndGo_succ _ _ (by omega), if_pos h]

theorem natDigits_two (y : Nat) (h1 : 10 ≤ y) (h2 : y < 100) :
    natDigits y = [Char.ofNat ('0'.toNat + y / 10),
      Char.ofNat ('0'.toNat + y % 10)] := by
  unfold natDigits
  rw [ndGo_succ _ _ (by omega), if_neg (by omega),
      ndGo_succ _ _ (by omega), if_pos (by omega)]
  rfl

theorem natDigits_three (y : Nat) (h1 : 100 ≤ y) (h2 : y < 1000) :
    natDigits y = [Char.ofNat ('0'.toNat + y / 100),
      Char.ofNat ('0'.toNat + y / 10 % 10), Char.ofNat ('0'.toNat + y % 10)] := by
  unfold natDigits
  rw [ndGo_succ _ _ (by omega), if_neg (by omega),
      ndGo_succ _ _ (by omega), if_neg (by omega),
      ndGo_succ _ _ (by omega), if_pos (by omega),
      Nat.div_div_eq_div_mul]
  rfl

theorem natDigits_four (y : Nat) (h1 : 1000 ≤ y) (h2 : y ≤ 9999) :
    natDigits y = [Char.ofNat ('0'.toNat + y / 1000),
      Char.ofNat ('0'.toNat + y / 100 % 10), Char.ofNat ('0'.toNat + y / 10 % 10),
      Char.ofNat ('0'.toNat + y % 10)] := by
  unfold natDigits
  rw [ndGo_succ _ _ (by omega), if_neg (by omega),
      ndGo_succ _ _ (by omega), if_neg (by omega),
      ndGo_succ _ _ (by omega), if_neg (by omega),
      ndGo_succ _ _ (by omega), if_pos (by omega),
      Nat.div_div_eq_div_mul, Nat.div_div_eq_div_mul,
      Nat.div_div_eq_div_mul]
  norm_num

theorem natDigits_mem_dateChars {n : Nat} {c : Char}
    (hc : c ∈ natDigits n) : c ∈ dateChars := by
  unfold natDigits at hc
  exact natDigitsGo_mem_dateChars hc

theorem canon_chars {y m d : Nat} {c : Char}
    (hc : c ∈ canonicalYmd (y, m, d)) : c ∈ dateChars := by
  unfold canonicalYmd pad2 at hc
  simp only [List.mem_append, List.mem_cons, List.not_mem_nil, or_false] at hc
  rcases hc with (h | rfl | rfl | rfl) | (rfl | rfl | rfl)
  · exact natDigits_mem_dateChars h
  · decide
  · exact digitChar_mem_dateChars (Nat.mod_lt _ (by omega))
  · exact digitChar_mem_dateChars (Nat.mod_lt _ (by omega))
  · decide
  · exact digitChar_mem_dateChars (Nat.mod_lt _ (by omega))
  · exact digitChar_mem_dateChars (Nat.mod_lt _ (by omega))

/-! ### The ordinal stripper is the identity on digit-dash strings -/

theorem isOrdSuffix_dash (b : Char) : isOrdSuffix '-' b = false := by
  have h : ('-').toLower = '-' := by decide
  simp only [isOrdSuffix, h, decide_eq_false_iff_not]
  rintro (⟨h1, _⟩ | ⟨h1, _⟩ | ⟨h1, _⟩ | ⟨h1, _⟩) <;> exact absurd h1 (by decide)

theorem ordStripGo_succ_cons (fuel : Nat) (c : Char) (t : List Char) :
    ordStripGo (fuel + 1) (c :: t) =
      if c.isDigit then
        match (c :: t).dropWhile Char.isDigit with
        | a :: b :: r2 =>
          if isOrdSuffix a b then (c :: t).takeWhile Char.isDigit ++ ordStripGo fuel r2
          else (c :: t).takeWhile Char.isDigit ++ ordStripGo fuel (a :: b :: r2)
        | [a] => (c :: t).takeWhile Char.isDigit ++ [a]
        | [] => (c :: t).takeWhile Char.isDigit
      else c :: ordStripGo fuel t := rfl

theorem ordStripGo_fixed : ∀ (fuel : Nat) (s : List Char), s.length ≤ fuel →
    (∀ c ∈ s, c.isDigit = true ∨ c = '-') → ordStripGo fuel s = s := by
  intro fuel
  induction fuel with
  | zero => intro s _ _; cases s <;> rfl
  | succ fuel ih =>
    intro s hlen hch
    cases s with
    | nil => rfl
    | cons c t =>
      by_cases hc : c.isDigit = true
      · rw [ordStripGo_succ_cons, if_pos hc]
        rcases hrest : (c :: t).dropWhile Char.isDigit with _ | ⟨a, r1⟩
        · show (c :: t).takeWhile Char.isDigit = c :: t
          conv_rhs => rw [← List.takeWhile_append_dropWhile (p := Char.isDigit)
            (l := c :: t), hrest]
          rw [List.append_nil]
        · rcases r1 with _ | ⟨b, r2⟩
          · show (c :: t).takeWhile Char.isDigit ++ [a] = c :: t
            conv_rhs => rw [← List.takeWhile_append_dropWhile (p := Char.isDigit)
              (l := c :: t), hrest]
          · show (if isOrdSuffix a b then
                (c :: t).takeWhile Char.isDigit ++ ordStripGo fuel r2
              else (c :: t).takeWhile Char.isDigit ++ ordStripGo fuel (a :: b :: r2))
              = c :: t
            have hsub : List.Sublist (a :: b :: r2) (c :: t) :=
              hrest ▸ List.dropWhile_sublist _
            have ha : Char.isDigit a = false := dropWhile_head_false hrest
            have ha' : a = '-' := by
              rcases hch a (hsub.subset (List.mem_cons_self a _)) with h | h
              · rw [h] at ha; cases ha
              · exact h
            rw [if_neg (by rw [ha', isOrdSuffix_dash]; simp)]
            have hdt : (c :: t).dropWhile Char.isDigit = t.dropWhile Char.isDigit := by
              rw [List.dropWhile_cons, if_pos hc]
            have hlen2 : (a :: b :: r2).length ≤ fuel := by
              have h3 := length_dropWhile_le' Char.isDigit t
              have h4 : List.dropWhile Char.isDigit t = a :: b :: r2 := by
                rw [← hdt]; exact hrest
              rw [h4] at h3
              simp only [List.length_cons] at hlen h3 ⊢
              omega
            rw [ih (a :: b :: r2) hlen2 (fun x hx => hch x (hsub.subset hx)),
              ← hrest, List.takeWhile_append_dropWhile]
      · rw [ordStripGo_succ_cons, if_neg hc]
        have : ordStripGo fuel t = t := by
          apply ih t (by simp only [List.length_cons] at hlen; omega)
          exact fun x hx => hch x (List.mem_cons_of_mem c hx)
        rw [this]

theorem ordStrip_fixed {s : List Char} (h : ∀ c ∈ s, c.isDigit = true ∨ c = '-') :
    ordStrip s = s := ordStripGo_fixed s.length s le_rfl h

theorem dateChars_digit_dash {c : Char} (hc : c ∈ dateChars) :
    c.isDigit = true ∨ c = '-' := by
  fin_cases hc <;> decide

theorem dateChars_props {c : Char} (hc : c ∈ dateChars) :
    pySpace c = false ∧ (c.toLower).isAlpha = false ∧ c ≠ '/' ∧ c ≠ '.' := by
  fin_cases hc <;> exact ⟨by decide, by decide, by decide, by decide⟩

theorem pyStrip_canon (y m d : Nat) :
    pyStrip (canonicalYmd (y, m, d)) = canonicalYmd (y, m, d) :=
  pyStrip_eq_self fun _ hc => (dateChars_props (canon_chars hc)).1

theorem ordStrip_canon (y m d : Nat) :
    ordStrip (canonicalYmd (y, m, d)) = canonicalYmd (y, m, d) :=
  ordStrip_fixed fun _ hc => dateChars_digit_dash (canon_chars hc)

/-! ### Token alternatives only consume from the front, and a token that
succeeds forces its character kind to be present in the input -/

theorem dropWordCI_suffix : ∀ (w s r : List Char), dropWordCI w s = some r →
    List.IsSuffix r s := by
  intro w
  induction w with
  | nil =>
    intro s r h
    rw [dropWordCI] at h
    cases h
    exact List.suffix_refl _
  | cons c wr ih =>
    intro s r h
    cases s with
    | nil => simp [dropWordCI] at h
    | cons x sr =>
      by_cases hx : x.toLower = c
      · rw [dropWordCI, if_pos hx] at h
        exact (ih sr r h).trans (List.suffix_cons x sr)
      · rw [dropWordCI, if_neg hx] at h
        cases h

theorem dropWordCI_head {c : Char} {wr s r : List Char}
    (h : dropWordCI (c :: wr) s = some r) :
    ∃ x sr, s = x :: sr ∧ x.toLower = c := by
  cases s with
  | nil => simp [dropWordCI] at h
  | cons x sr =>
    by_cases hx : x.toLower = c
    · exact ⟨x, sr, rfl, hx⟩
    · rw [dropWordCI, if_neg hx] at h; cases h

theorem tokAlts_suffix (t : FTok) (s : List Char) (p : Nat × List Char)
    (hp : p ∈ tokAlts t s) : List.IsSuffix p.2 s := by
  cases t with
  | day =>
    rcases s with _ | ⟨a, _ | ⟨b, r⟩⟩
    · simp [tokAlts, dayAlts] at hp
    · simp only [tokAlts, dayAlts, List.append_nil, List.nil_append] at hp
      obtain rfl := mem_ite_singleton hp
      exact List.nil_suffix
    · simp only [tokAlts, dayAlts, List.mem_append] at hp
      have hsr : List.IsSuffix r (a :: b :: r) :=
        (List.suffix_cons b r).trans (List.suffix_cons a (b :: r))
      have hbr : List.IsSuffix (b :: r) (a :: b :: r) := List.suffix_cons a (b :: r)
      rcases hp with (((h | h) | h) | h) | h
      · obtain rfl := mem_ite_singleton h; exact hsr
      · obtain rfl := mem_ite_singleton h; exact hsr
      · obtain rfl := mem_ite_singleton h; exact hsr
      · obtain rfl := mem_ite_singleton h; exact hbr
      · obtain rfl := mem_ite_singleton h; exact hsr
  | mon =>
    rcases s with _ | ⟨a, _ | ⟨b, r⟩⟩
    · simp [tokAlts, monAlts] at hp
    · simp only [tokAlts, monAlts, List.append_nil, List.nil_append] at hp
      obtain rfl := mem_ite_singleton hp
      exact List.nil_suffix
    · simp only [tokAlts, monAlts, List.mem_append] at hp
      have hsr : List.IsSuffix r (a :: b :: r) :=
        (List.suffix_cons b r).trans (List.suffix_cons a (b :: r))
      rcases hp with (h | h) | h
      · obtain rfl := mem_ite_singleton h; exact hsr
      · obtain rfl := mem_ite_singleton h; exact hsr
      · obtain rfl := mem_ite_singleton h
        exact List.suffix_cons a (b :: r)
  | y4 =>
    rcases s with _ | ⟨a, _ | ⟨b, _ | ⟨c3, _ | ⟨d4, r⟩⟩⟩⟩
    · simp [tokAlts, y4Alts] at hp
    · simp [tokAlts, y4Alts] at hp
    · simp [tokAlts, y4Alts] at hp
    · simp [tokAlts, y4Alts] at hp
    · simp only [tokAlts, y4Alts] at hp
      obtain rfl := mem_ite_singleton hp
      exact ((((List.suffix_cons d4 r).trans (List.suffix_cons c3 _)).trans
        (List.suffix_cons b _)).trans (List.suffix_cons a _))
  | y2 =>
    rcases s with _ | ⟨a, _ | ⟨b, r⟩⟩
    · simp [tokAlts, y2Alts] at hp
    · simp [tokAlts, y2Alts] at hp
    · simp only [tokAlts, y2Alts] at hp
      obtain rfl := mem_ite_singleton hp
      exact (List.suffix_cons b r).trans (List.suffix_cons a (b :: r))
  | monAbbr =>
    simp only [tokAlts, monAbbrAlts] at hp
    rcases List.mem_filterMap.mp hp with ⟨i, hi, hmap⟩
    rcases Option.map_eq_some'.mp hmap with ⟨r, hdrop, rfl⟩
    exact dropWordCI_suffix _ _ _ hdrop
  | monFull =>
    simp only [tokAlts, monFullAlts] at hp
    rcases List.mem_filterMap.mp hp with ⟨i, hi, hmap⟩
    rcases Option.map_eq_some'.mp hmap with ⟨r, hdrop, rfl⟩
    exact dropWordCI_suffix _ _ _ hdrop
  | lit ch =>
    cases s with
    | nil => simp [tokAlts] at hp
    | cons x r =>
      simp only [tokAlts] at hp
      obtain rfl := mem_ite_singleton hp
      exact List.suffix_cons x r
  | ws =>
    simp only [tokAlts, wsAlts] at hp
    rcases List.mem_map.mp hp with ⟨i, hi, rfl⟩
    exact List.drop_suffix _ _

theorem tokNeeds_mono {t : FTok} {s1 s2 : List Char} (hsuf : List.IsSuffix s1 s2)
    (h : tokNeeds t s1) : tokNeeds t s2 := by
  cases t <;> simp only [tokNeeds] at h ⊢
  all_goals first
    | trivial
    | exact hsuf.subset h
    | (obtain ⟨c, hc, hpc⟩ := h; exact ⟨c, hsuf.subset hc, hpc⟩)

theorem tokAlts_head_needs (t : FTok) (s : List Char) (p : Nat × List Char)
    (hp : p ∈ tokAlts t s) : tokNeeds t s := by
  cases t with
  | day => trivial
  | mon => trivial
  | y4 => trivial
  | y2 => trivial
  | lit ch =>
    cases s with
    | nil => simp [tokAlts] at hp
    | cons x r =>
      simp only [tokAlts] at hp
      show ch ∈ x :: r
      by_cases hx : x = ch
      · exact hx ▸ List.mem_cons_self x r
      · rw [if_neg hx] at hp; simp at hp
  | ws =>
    simp only [tokAlts, wsAlts] at hp
    rcases List.mem_map.mp hp with ⟨i, hi, _⟩
    have hn : s.takeWhile pySpace ≠ [] := by
      intro h0
      rw [List.mem_range, h0] at hi
      simp at hi
    exact takeWhile_head_sat hn
  | monAbbr =>
    simp only [tokAlts, monAbbrAlts] at hp
    rcases List.mem_filterMap.mp hp with ⟨i, hi, hmap⟩
    rcases Option.map_eq_some'.mp hmap with ⟨r, hdrop, _⟩
    rw [List.mem_range] at hi
    interval_cases i <;>
      · obtain ⟨x, sr, rfl, hx⟩ := dropWordCI_head hdrop
        exact ⟨x, List.mem_cons_self _ _, by rw [hx]; decide⟩
  | monFull =>
    simp only [tokAlts, monFullAlts] at hp
    rcases List.mem_filterMap.mp hp with ⟨i, hi, hmap⟩
    rcases Option.map_eq_some'.mp hmap with ⟨r, hdrop, _⟩
    rw [List.mem_range] at hi
    interval_cases i <;>
      · obtain ⟨x, sr, rfl, hx⟩ := dropWordCI_head hdrop
        exact ⟨x, List.mem_cons_self _ _, by rw [hx]; decide⟩

theorem runToks_needs : ∀ (toks : List FTok) (s : List Char) (acc r : Nat × Nat × Nat),
    runToks toks s acc = some r → ∀ t ∈ toks, tokNeeds t s := by
  intro toks
  induction toks with
  | nil => intro s acc r _ t ht; simp at ht
  | cons t0 ts ih =>
    intro s acc r h t ht
    rw [runToks] at h
    obtain ⟨p, hpmem, hprun⟩ := firstSome_some_ex _ _ _ h
    rcases List.mem_cons.mp ht with rfl | hts
    · exact tokAlts_head_needs t s p hpmem
    · exact tokNeeds_mono (tokAlts_suffix t0 s p hpmem) (ih p.2 _ r hprun t hts)

/-! ### Refuting formats on canonical renderings -/

theorem suffix_eq_drop {t s : List Char} (h : List.IsSuffix t s) :
    t = s.drop (s.length - t.length) := by
  obtain ⟨pre, rfl⟩ := h
  rw [List.length_append, Nat.add_sub_cancel, List.drop_left]

theorem runToks_y4_last : ∀ (toks : List FTok) (s : List Char) (acc r : Nat × Nat × Nat),
    runToks (toks ++ [.y4]) s acc = some r →
    ∃ t4, List.IsSuffix t4 s ∧ t4.length = 4 ∧ ∀ c ∈ t4, c.isDigit = true := by
  intro toks
  induction toks with
  | nil =>
    intro s acc r h
    rw [List.nil_append, runToks] at h
    obtain ⟨p, hpmem, hprun⟩ := firstSome_some_ex _ _ _ h
    have hp2 : p.2 = [] := by
      rw [runToks] at hprun
      by_cases h2 : p.2 = []
      · exact h2
      · rw [if_neg h2] at hprun; cases hprun
    rcases s with _ | ⟨a, _ | ⟨b, _ | ⟨c3, _ | ⟨d4, rr⟩⟩⟩⟩
    · simp [tokAlts, y4Alts] at hpmem
    · simp [tokAlts, y4Alts] at hpmem
    · simp [tokAlts, y4Alts] at hpmem
    · simp [tokAlts, y4Alts] at hpmem
    · simp only [tokAlts, y4Alts] at hpmem
      split at hpmem
      · rename_i hcond
        rw [List.mem_singleton] at hpmem
        have hrr : rr = [] := by rw [hpmem] at hp2; exact hp2
        subst hrr
        refine ⟨[a, b, c3, d4], List.suffix_refl _, rfl, ?_⟩
        intro c hc
        rcases hc with _ | ⟨_, (_ | ⟨_, (_ | ⟨_, (_ | ⟨_, h0⟩)⟩)⟩)⟩
        · exact hcond.1
        · exact hcond.2.1
        · exact hcond.2.2.1
        · exact hcond.2.2.2
        · cases h0
      · simp at hpmem
  | cons t0 ts ih =>
    intro s acc r h
    rw [List.cons_append, runToks] at h
    obtain ⟨p, hpmem, hprun⟩ := firstSome_some_ex _ _ _ h
    obtain ⟨t4, hsuf, hlen, hdig⟩ := ih p.2 _ r hprun
    exact ⟨t4, hsuf.trans (tokAlts_suffix t0 s p hpmem), hlen, hdig⟩

theorem canon_drop_four (y m d : Nat) :
    (canonicalYmd (y, m, d)).drop ((canonicalYmd (y, m, d)).length - 4)
      = [Char.ofNat ('0'.toNat + m % 10), '-',
         Char.ofNat ('0'.toNat + d / 10 % 10), Char.ofNat ('0'.toNat + d % 10)] := by
  have hshape : canonicalYmd (y, m, d)
      = (natDigits y ++ ['-', Char.ofNat ('0'.toNat + m / 10 % 10)])
        ++ [Char.ofNat ('0'.toNat + m % 10), '-',
            Char.ofNat ('0'.toNat + d / 10 % 10), Char.ofNat ('0'.toNat + d % 10)] := by
    unfold canonicalYmd pad2
    simp [List.append_assoc]
  rw [hshape]
  have hlen : ((natDigits y ++ ['-', Char.ofNat ('0'.toNat + m / 10 % 10)])
        ++ [Char.ofNat ('0'.toNat + m % 10), '-',
            Char.ofNat ('0'.toNat + d / 10 % 10), Char.ofNat ('0'.toNat + d % 10)]).length - 4
      = (natDigits y ++ ['-', Char.ofNat ('0'.toNat + m / 10 % 10)]).length := by
    simp
  rw [hlen, List.drop_left]

theorem strptime_some_runToks {fmt : List FTok} {s : List Char} {v : Nat × Nat × Nat}
    (h : strptime fmt s = some v) :
    runToks fmt s (1900, 1, 1) = some v ∧ validDate v.1 v.2.1 v.2.2 = true := by
  simp only [strptime] at h
  split at h
  · rename_i y0 m0 d0 heq
    split at h
    · rename_i hv
      cases h
      exact ⟨heq, hv⟩
    · cases h
  · cases h

theorem strptime_none_of_lit {fmt : List FTok} {s : List Char} {ch : Char}
    (hmem : FTok.lit ch ∈ fmt) (hch : ch ∉ s) : strptime fmt s = none := by
  rcases h : strptime fmt s with _ | v
  · rfl
  · exact absurd (runToks_needs fmt s _ v (strptime_some_runToks h).1 _ hmem) hch

theorem strptime_none_of_ws {fmt : List FTok} {s : List Char}
    (hmem : FTok.ws ∈ fmt) (hsp : ∀ c ∈ s, pySpace c = false) :
    strptime fmt s = none := by
  rcases h : strptime fmt s with _ | v
  · rfl
  · exfalso
    obtain ⟨c, hc, hpc⟩ := runToks_needs fmt s _ v (strptime_some_runToks h).1 _ hmem
    rw [hsp c hc] at hpc
    cases hpc

theorem strptime_none_of_monAbbr {fmt : List FTok} {s : List Char}
    (hmem : FTok.monAbbr ∈ fmt) (hal : ∀ c ∈ s, (c.toLower).isAlpha = false) :
    strptime fmt s = none := by
  rcases h : strptime fmt s with _ | v
  · rfl
  · exfalso
    obtain ⟨c, hc, hpc⟩ := runToks_needs fmt s _ v (strptime_some_runToks h).1 _ hmem
    rw [hal c hc] at hpc
    cases hpc

theorem strptime_none_of_monFull {fmt : List FTok} {s : List Char}
    (hmem : FTok.monFull ∈ fmt) (hal : ∀ c ∈ s, (c.toLower).isAlpha = false) :
    strptime fmt s = none := by
  rcases h : strptime fmt s with _ | v
  · rfl
  · exfalso
    obtain ⟨c, hc, hpc⟩ := runToks_needs fmt s _ v (strptime_some_runToks h).1 _ hmem
    rw [hal c hc] at hpc
    cases hpc

theorem strptime_none_y4_last_canon (toks : List FTok) (y m d : Nat) :
    strptime (toks ++ [.y4]) (canonicalYmd (y, m, d)) = none := by
  rcases h : strptime (toks ++ [.y4]) (canonicalYmd (y, m, d)) with _ | v
  · exact h
  · exfalso
    obtain ⟨t4, hsuf, hlen, hdig⟩ :=
      runToks_y4_last _ _ _ _ (strptime_some_runToks h).1
    have ht4 := suffix_eq_drop hsuf
    rw [hlen, canon_drop_four] at ht4
    have h2 := hdig '-' (by rw [ht4]; simp)
    exact absurd h2 (by decide)

/-! ### Reparsing a canonical rendering -/

theorem daysInMonth_le (y m : Nat) : daysInMonth y m ≤ 31 := by
  unfold daysInMonth
  split
  · split <;> omega
  · split <;> omega

theorem runToks_monday (m d y : Nat) (hm1 : 1 ≤ m) (hm2 : m ≤ 12)
    (hd1 : 1 ≤ d) (hd2 : d ≤ 31) :
    runToks [.mon, .lit '-', .day] (pad2 m ++ '-' :: pad2 d) (y, 1, 1)
      = some (y, m, d) := by
  interval_cases m <;> interval_cases d <;> rfl

theorem strptime_fmt6_canon_big (y m d : Nat) (hy : 1000 ≤ y)
    (hv : validDate y m d = true) :
    strptime [.y4, .lit '-', .mon, .lit '-', .day] (canonicalYmd (y, m, d))
      = some (y, m, d) := by
  have hprop : 1 ≤ y ∧ y ≤ 9999 ∧ 1 ≤ m ∧ m ≤ 12 ∧ 1 ≤ d ∧ d ≤ daysInMonth y m := by
    simpa [validDate] using hv
  have hd31 : d ≤ 31 := le_trans hprop.2.2.2.2.2 (daysInMonth_le y m)
  have hcanon : canonicalYmd (y, m, d)
      = Char.ofNat ('0'.toNat + y / 1000) :: Char.ofNat ('0'.toNat + y / 100 % 10)
        :: Char.ofNat ('0'.toNat + y / 10 % 10) :: Char.ofNat ('0'.toNat + y % 10)
        :: '-' :: (pad2 m ++ '-' :: pad2 d) := by
    unfold canonicalYmd
    rw [natDigits_four y hy hprop.2.1]
    simp
  have hy4 : y4Alts (Char.ofNat ('0'.toNat + y / 1000) :: Char.ofNat ('0'.toNat + y / 100 % 10)
        :: Char.ofNat ('0'.toNat + y / 10 % 10) :: Char.ofNat ('0'.toNat + y % 10)
        :: '-' :: (pad2 m ++ '-' :: pad2 d))
      = [(y, '-' :: (pad2 m ++ '-' :: pad2 d))] := by
    simp only [y4Alts]
    rw [if_pos ⟨digitChar_isDigit (by omega), digitChar_isDigit (by omega),
      digitChar_isDigit (by omega), digitChar_isDigit (by omega)⟩,
      digVal_digitChar (by omega), digVal_digitChar (by omega),
      digVal_digitChar (by omega), digVal_digitChar (by omega)]
    have hval : y / 1000 * 1000 + y / 100 % 10 * 100 + y / 10 % 10 * 10 + y % 10 = y := by
      omega
    rw [hval]
  have hlit : tokAlts (.lit '-') ('-' :: (pad2 m ++ '-' :: pad2 d))
      = [(0, pad2 m ++ '-' :: pad2 d)] := by
    simp [tokAlts]
  have hcont : runToks [.lit '-', .mon, .lit '-', .day]
      ('-' :: (pad2 m ++ '-' :: pad2 d)) (y, 1, 1) = some (y, m, d) := by
    rw [runToks, hlit]
    exact firstSome_cons_some
      (runToks_monday m d y hprop.2.2.1 hprop.2.2.2.1 hprop.2.2.2.2.1 hd31)
  have hrun : runToks [.y4, .lit '-', .mon, .lit '-', .day]
      (canonicalYmd (y, m, d)) (1900, 1, 1) = some (y, m, d) := by
    rw [hcanon, runToks, tokAlts, hy4]
    exact firstSome_cons_some hcont
  unfold strptime
  rw [hrun]
  show (if validDate y m d = true then some (y, m, d) else none) = some (y, m, d)
  rw [if_pos hv]

theorem strptime_fmt6_canon_small (y m d : Nat) (hy : y < 1000) :
    strptime [.y4, .lit '-', .mon, .lit '-', .day] (canonicalYmd (y, m, d)) = none := by
  have hempty : y4Alts (canonicalYmd (y, m, d)) = [] := by
    rcases Nat.lt_or_ge y 10 with hband | hband
    · have hc : canonicalYmd (y, m, d)
          = Char.ofNat ('0'.toNat + y) :: '-' :: Char.ofNat ('0'.toNat + m / 10 % 10)
            :: Char.ofNat ('0'.toNat + m % 10) :: '-'
            :: Char.ofNat ('0'.toNat + d / 10 % 10)
            :: Char.ofNat ('0'.toNat + d % 10) :: [] := by
        unfold canonicalYmd pad2
        rw [natDigits_one y hband]
        simp
      rw [hc]
      simp only [y4Alts]
      rw [if_neg (by rintro ⟨_, h2, _⟩; exact absurd h2 (by decide))]
    rcases Nat.lt_or_ge y 100 with hband2 | hband2
    · have hc : canonicalYmd (y, m, d)
          = Char.ofNat ('0'.toNat + y / 10) :: Char.ofNat ('0'.toNat + y % 10) :: '-'
            :: Char.ofNat ('0'.toNat + m / 10 % 10)
            :: Char.ofNat ('0'.toNat + m % 10) :: '-'
            :: Char.ofNat ('0'.toNat + d / 10 % 10)
            :: Char.ofNat ('0'.toNat + d % 10) :: [] := by
        unfold canonicalYmd pad2
        rw [natDigits_two y hband hband2]
        simp
      rw [hc]
      simp only [y4Alts]
      rw [if_neg (by rintro ⟨_, _, h3, _⟩; exact absurd h3 (by decide))]
    · have hc : canonicalYmd (y, m, d)
          = Char.ofNat ('0'.toNat + y / 100) :: Char.ofNat ('0'.toNat + y / 10 % 10)
            :: Char.ofNat ('0'.toNat + y % 10) :: '-'
            :: Char.ofNat ('0'.toNat + m / 10 % 10)
            :: Char.ofNat ('0'.toNat + m % 10) :: '-'
            :: Char.ofNat ('0'.toNat + d / 10 % 10)
            :: Char.ofNat ('0'.toNat + d % 10) :: [] := by
        unfold canonicalYmd pad2
        rw [natDigits_three y hband2 hy]
        simp
      rw [hc]
      simp only [y4Alts]
      rw [if_neg (by rintro ⟨_, _, _, h4⟩; exact absurd h4 (by decide))]
  have hrt : runToks [.y4, .lit '-', .mon, .lit '-', .day]
      (canonicalYmd (y, m, d)) (1900, 1, 1) = none := by
    rw [runToks, tokAlts, hempty]
    rfl
  unfold strptime
  rw [hrt]

theorem canon_reparse_big (y m d : Nat) (hy : 1000 ≤ y) (hv : validDate y m d = true) :
    firstSome normalizeFormats (fun fmt => strptime fmt (canonicalYmd (y, m, d)))
      = some (y, m, d) := by
  have hnoslash : '/' ∉ canonicalYmd (y, m, d) := fun h =>
    (dateChars_props (canon_chars h)).2.2.1 rfl
  have step : ∀ (x : List FTok) (xs : List (List FTok)),
      strptime x (canonicalYmd (y, m, d)) = none →
      firstSome (x :: xs) (fun fmt => strptime fmt (canonicalYmd (y, m, d)))
        = firstSome xs (fun fmt => strptime fmt (canonicalYmd (y, m, d))) :=
    fun x xs h => firstSome_cons_none h
  have hf1 : strptime [FTok.day, FTok.lit '/', FTok.mon, FTok.lit '/', FTok.y4]
      (canonicalYmd (y, m, d)) = none := strptime_none_of_lit (by decide) hnoslash
  have hf3 : strptime [FTok.mon, FTok.lit '/', FTok.day, FTok.lit '/', FTok.y4]
      (canonicalYmd (y, m, d)) = none := strptime_none_of_lit (by decide) hnoslash
  have hf5 : strptime [FTok.y4, FTok.lit '/', FTok.mon, FTok.lit '/', FTok.day]
      (canonicalYmd (y, m, d)) = none := strptime_none_of_lit (by decide) hnoslash
  have hf2 : strptime [FTok.day, FTok.lit '-', FTok.mon, FTok.lit '-', FTok.y4]
      (canonicalYmd (y, m, d)) = none :=
    strptime_none_y4_last_canon [.day, .lit '-', .mon, .lit '-'] y m d
  have hf4 : strptime [FTok.mon, FTok.lit '-', FTok.day, FTok.lit '-', FTok.y4]
      (canonicalYmd (y, m, d)) = none :=
    strptime_none_y4_last_canon [.mon, .lit '-', .day, .lit '-'] y m d
  unfold normalizeFormats
  rw [step _ _ hf1, step _ _ hf2, step _ _ hf3, step _ _ hf4, step _ _ hf5]
  exact firstSome_cons_some (strptime_fmt6_canon_big y m d hy hv)

theorem canon_reparse_small (y m d : Nat) (hy : y < 1000) :
    firstSome normalizeFormats (fun fmt => strptime fmt (canonicalYmd (y, m, d)))
      = none := by
  apply firstSome_none_of_all
  intro fmt hfmt
  have hnoslash : '/' ∉ canonicalYmd (y, m, d) := fun h =>
    (dateChars_props (canon_chars h)).2.2.1 rfl
  have hnodot : '.' ∉ canonicalYmd (y, m, d) := fun h =>
    (dateChars_props (canon_chars h)).2.2.2 rfl
  have hnosp : ∀ c ∈ canonicalYmd (y, m, d), pySpace c = false := fun c hc =>
    (dateChars_props (canon_chars hc)).1
  have hnoal : ∀ c ∈ canonicalYmd (y, m, d), (c.toLower).isAlpha = false := fun c hc =>
    (dateChars_props (canon_chars hc)).2.1
  fin_cases hfmt
  · exact strptime_none_of_lit (by decide) hnoslash
  · exact strptime_none_y4_last_canon [.day, .lit '-', .mon, .lit '-'] y m d
  · exact strptime_none_of_lit (by decide) hnoslash
  · exact strptime_none_y4_last_canon [.mon, .lit '-', .day, .lit '-'] y m d
  · exact strptime_none_of_lit (by decide) hnoslash
  · exact strptime_fmt6_canon_small y m d hy
  · exact strptime_none_of_lit (by decide) hnodot
  · exact strptime_none_of_lit (by decide) hnodot
  · exact strptime_none_of_ws (by decide) hnosp
  · exact strptime_none_of_ws (by decide) hnosp
  · exact strptime_none_of_lit (by decide) hnoslash
  · exact strptime_none_of_lit (by decide) hnoslash
  · exact strptime_none_of_ws (by decide) hnosp
  · exact strptime_none_of_ws (by decide) hnosp
  · exact strptime_none_of_ws (by decide) hnosp
  · exact strptime_none_of_ws (by decide) hnosp
  · exact strptime_none_of_monAbbr (by decide) hnoal
  · exact strptime_none_of_monFull (by decide) hnoal

/-! ### Normalization fixes canonical renderings; the C6 theorems -/

theorem natDigitsGo_digits {f n : Nat} {c : Char}
    (hc : c ∈ natDigitsGo f n) : c.isDigit = true := by
  induction f generalizing n with
  | zero => simp [natDigitsGo] at hc
  | succ f ih =>
    rw [natDigitsGo] at hc
    split at hc
    · rename_i hn
      rw [List.mem_singleton] at hc
      exact hc ▸ digitChar_isDigit hn
    · rcases List.mem_append.mp hc with h | h
      · exact ih h
      · rw [List.mem_singleton] at h
        exact h ▸ digitChar_isDigit (Nat.mod_lt _ (by omega))

theorem natDigits_digits {n : Nat} {c : Char} (hc : c ∈ natDigits n) :
    c.isDigit = true := by
  unfold natDigits at hc
  exact natDigitsGo_digits hc

theorem canon_shape (y m d : Nat) : canonicalYmd (y, m, d) = natDigits y ++
    ('-' :: Char.ofNat ('0'.toNat + m / 10 % 10) :: Char.ofNat ('0'.toNat + m % 10)
      :: '-' :: Char.ofNat ('0'.toNat + d / 10 % 10)
      :: Char.ofNat ('0'.toNat + d % 10) :: []) := by
  unfold canonicalYmd pad2
  simp

theorem canon_dropWhile (y m d : Nat) :
    (canonicalYmd (y, m, d)).dropWhile Char.isDigit
      = '-' :: Char.ofNat ('0'.toNat + m / 10 % 10) :: Char.ofNat ('0'.toNat + m % 10)
        :: '-' :: Char.ofNat ('0'.toNat + d / 10 % 10)
        :: Char.ofNat ('0'.toNat + d % 10) :: [] := by
  rw [canon_shape, dropWhile_append_of_all fun c hc => natDigits_digits hc]
  exact dropWhile_cons_false (by decide)

theorem canon_takeWhile (y m d : Nat) :
    (canonicalYmd (y, m, d)).takeWhile Char.isDigit = natDigits y := by
  rw [canon_shape, takeWhile_append_of_all fun c hc => natDigits_digits hc,
      List.takeWhile_cons, if_neg (by decide), List.append_nil]

theorem isCanonicalShape_canon (y m d : Nat) :
    isCanonicalShape (canonicalYmd (y, m, d)) = true := by
  rw [isCanonicalShape, canon_dropWhile, canon_takeWhile]
  exact decide_eq_true ⟨natDigits_ne_nil y,
    digitChar_isDigit (Nat.mod_lt _ (by omega)),
    digitChar_isDigit (Nat.mod_lt _ (by omega)),
    digitChar_isDigit (Nat.mod_lt _ (by omega)),
    digitChar_isDigit (Nat.mod_lt _ (by omega))⟩

theorem normalize_date_eq (s : List Char) :
    normalize_date s = match firstSome normalizeFormats
        (fun fmt => strptime fmt (ordStrip (pyStrip s))) with
      | some ymd => canonicalYmd ymd
      | none => ordStrip (pyStrip s) := rfl

theorem parse_validDate {t : List Char} {y m d : Nat}
    (h : firstSome normalizeFormats (fun fmt => strptime fmt t) = some (y, m, d)) :
    validDate y m d = true := by
  obtain ⟨fmt, _, hf⟩ := firstSome_some_ex _ _ _ h
  exact (strptime_some_runToks hf).2

theorem normalize_canon (y m d : Nat) (hv : validDate y m d = true) :
    normalize_date (canonicalYmd (y, m, d)) = canonicalYmd (y, m, d) := by
  rw [normalize_date_eq, pyStrip_canon, ordStrip_canon]
  rcases Nat.lt_or_ge y 1000 with hy | hy
  · rw [canon_reparse_small y m d hy]
  · rw [canon_reparse_big y m d hy hv]

/-- C6 (counterexample): the claim "for every date string recognized by one
of the supported date patterns, normalization returns a string in canonical
Y-M-D form; for every unrecognized string, the original trimmed string is
returned unchanged; normalizing twice equals normalizing once" fails on all
three counts. "31/31/2024" is matched by the first date pattern but no
strptime format accepts it (day 31, month 31 is invalid), so it is returned
verbatim, not in canonical shape; "1st" is matched by no date pattern yet
the ordinal-suffix stripper rewrites it to "1", so the trimmed original is
not returned unchanged; and "1stst" normalizes to "1st" which normalizes
again to "1", so normalization is not idempotent. -/
theorem C6_normalize_counterexample :
    (findDateGroup ("31/31/2024".toList)).isSome = true ∧
    isCanonicalShape (normalize_date ("31/31/2024".toList)) = false ∧
    (findDateGroup ("1st".toList)).isSome = false ∧
    pyStrip ("1st".toList) = "1st".toList ∧
    normalize_date ("1st".toList) ≠ "1st".toList ∧
    normalize_date (normalize_date ("1stst".toList))
      ≠ normalize_date ("1stst".toList) := by
  refine ⟨rfl, rfl, rfl, rfl, ?_, ?_⟩ <;> decide

/-- C6 (amended): date normalization returns the canonical `%Y-%m-%d`
rendering - a digit run, dash, two digits, dash, two digits - exactly when
one of the 18 strptime formats accepts the stripped, ordinal-stripped input,
and otherwise returns that stripped, ordinal-stripped string (not the
trimmed original); and normalization is idempotent on every input whose
trimmed form is unchanged by the ordinal-suffix stripper (in particular on
every parse success, since a canonical rendering of a valid date is a fixed
point of the whole pipeline). -/
theorem C6_amended_normalize (s : List Char) :
    (∀ y m d, firstSome normalizeFormats
        (fun fmt => strptime fmt (ordStrip (pyStrip s))) = some (y, m, d) →
      normalize_date s = canonicalYmd (y, m, d) ∧
      isCanonicalShape (normalize_date s) = true ∧
      normalize_date (normalize_date s) = normalize_date s) ∧
    (firstSome normalizeFormats
        (fun fmt => strptime fmt (ordStrip (pyStrip s))) = none →
      normalize_date s = ordStrip (pyStrip s)) ∧
    (ordStrip (pyStrip s) = pyStrip s →
      normalize_date (normalize_date s) = normalize_date s) := by
  refine ⟨?_, ?_, ?_⟩
  · intro y m d h
    have hv := parse_validDate h
    have h1 : normalize_date s = canonicalYmd (y, m, d) := by
      rw [normalize_date_eq s, h]
    refine ⟨h1, ?_, ?_⟩
    · rw [h1]; exact isCanonicalShape_canon y m d
    · rw [h1]; exact normalize_canon y m d hv
  · intro h
    rw [normalize_date_eq s, h]
  · intro hfix
    rcases hp : firstSome normalizeFormats
        (fun fmt => strptime fmt (ordStrip (pyStrip s))) with _ | ⟨⟨y, m, d⟩⟩
    · have h1 : normalize_date s = pyStrip s := by
        rw [normalize_date_eq s, hp]
        exact hfix
      have hp2 : firstSome normalizeFormats
          (fun fmt => strptime fmt (pyStrip s)) = none := by
        rw [← hfix]
        exact hp
      rw [h1, normalize_date_eq (pyStrip s), pyStrip_idem, hfix, hp2]
    · have hv := parse_validDate hp
      have h1 : normalize_date s = canonicalYmd (y, m, d) := by
        rw [normalize_date_eq s, hp]
      rw [h1]
      exact normalize_canon y m d hv

/-- Witness for the amended C6 theorem at the parse-success input
" 03/04/2024 " (day/month/year, leading and trailing blanks) and the
parse-failure input "hello". -/
theorem C6_amended_normalize_witness :
    normalize_date (" 03/04/2024 ".toList) = "2024-04-03".toList ∧
    isCanonicalShape (normalize_date (" 03/04/2024 ".toList)) = true ∧
    normalize_date (normalize_date (" 03/04/2024 ".toList))
      = normalize_date (" 03/04/2024 ".toList) ∧
    normalize_date ("hello".toList) = ordStrip (pyStrip ("hello".toList)) ∧
    normalize_date (normalize_date ("hello".toList))
      = normalize_date ("hello".toList) := by
  have h1 := (C6_amended_normalize (" 03/04/2024 ".toList)).1 2024 4 3 (by decide)
  have h2 := (C6_amended_normalize ("hello".toList)).2.1 (by decide)
  have h3 := (C6_amended_normalize ("hello".toList)).2.2 (by decide)
  refine ⟨?_, h1.2.1, h1.2.2, h2, h3⟩
  rw [h1.1]
  decide

end BASChat
